import Mathlib

/-
  Verification development for the debugging engine in `proctl`
  (src/proctl/proctl.go, src/proctl/threads.go).

  The engine is shallowly embedded: the breakpoint table, byte-granular
  target memory and per-thread register files are explicit state; the
  external collaborators (DWARF readers, symbol table, line info, source
  index) and the OS ptrace primitives are supplied as read-only oracle
  functions in an `Env` record, matching the interfaces listed in spec §6.
  Go's `uint64` arithmetic is modelled on `Nat` with an explicit wrap where
  the source can underflow (the `pc - 1` software-breakpoint probe).
  Machine-level traces (which breakpoints were cleared/installed, which
  threads were stepped or resumed) are recorded in an action log so that
  ordering claims can be stated observationally.
-/

namespace Delve

/-- The single-byte trap instruction written over the original byte of a
software breakpoint (`int3`, `0xCC`, on the target architecture). -/
def trapByte : Nat := 0xCC

/-- Modelled from the spec (§3 "Breakpoint"): the `BreakPoint` record itself is
declared in an OS file that is not under `src/`. Attributes: stable numeric
id, target address, `Temp` flag, and the single overwritten byte
(`OriginalData`) for software breakpoints.  The purely informational origin
fields (file, line, function name) are omitted. -/
structure BreakPoint where
  id : Nat
  addr : Nat
  temp : Bool
  originalData : Nat
deriving DecidableEq, Repr

/-- Modelled from the spec (§3 "Tasklet"): the `G` record (goroutine snapshot)
is built by `parseG`, which is not under `src/`. -/
structure G where
  id : Nat
  pc : Nat
  sp : Nat
  goPC : Nat
  file : String
  line : Nat
  waitReason : String
deriving DecidableEq, Repr

/-- View of `gosym.Func` (external symbol-table collaborator): name, entry PC
and end PC.  `End` is called `fend` because `end` is reserved in Lean. -/
structure Func where
  name : String
  entry : Nat
  fend : Nat
deriving DecidableEq, Repr

/-- Error kinds of the engine (spec §7).  Collaborator/OS failures that the
source only propagates are tagged `external`. -/
inductive Err where
  | goroutineExiting (id : Nat)
  | breakPointExists (addr : Nat)
  | noBreakPoint (addr : Nat)
  | couldNotClear
  | couldNotStep
  | couldNotSetRegisters
  | panicRegisters
  | unrecognized (pc : Nat)
  | couldNotFindLocation (str : String)
  | threadNotFound (tid : Nat)
  | external (tag : Nat)
deriving DecidableEq, Repr

/-- Observable machine-level actions, recorded in the order the engine
performs them. -/
inductive Action where
  | clearBp (addr : Nat)
  | installBp (addr : Nat)
  | setPC (tid : Nat) (addr : Nat)
  | singleStep (tid : Nat)
  | resumeTh (tid : Nat)
  | halt
  | nextIssued (tid : Nat)
  | contIssued (tid : Nat)
deriving DecidableEq, Repr

/-- Result of the session-level `next` loop: success, error, or still blocked
in the trap-wait loop when the step budget ran out (the Go loop would simply
not have returned yet). -/
inductive Outcome where
  | ok
  | err (e : Err)
  | hung
deriving DecidableEq, Repr

/-- View of a DWARF Frame Description Entry (external collaborator, spec §6):
`Cover`, `ReturnAddressOffset` and `FrameOffset`. -/
structure FDE where
  cover : Nat → Bool
  returnAddressOffset : Nat → Int
  frameOffset : Nat → Int

/-- Register view of one OS thread: program counter and stack pointer. -/
structure ThreadRegs where
  pc : Nat
  sp : Nat
deriving DecidableEq, Repr

/-- Read-only collaborators and OS oracles (spec §6).  Collaborator answers
and ptrace outcomes are injected here; the engine's own state is in
`DbpState`. -/
structure Env where
  /-- `ast.NextLines` (source index). -/
  nextLines : String → Nat → Except Err (List Nat)
  /-- `lineInfo.AllPCsForFileLine`. -/
  allPCsForFileLine : String → Nat → List Nat
  /-- `frameEntries.FDEForPC`. -/
  fdeForPC : Nat → Except Err FDE
  /-- `goSymTable.PCToLine`: file, line, containing function. -/
  pcToLine : Nat → String × Nat × Option Func
  /-- `goSymTable.PCToFunc`. -/
  pcToFunc : Nat → Option Func
  /-- `goSymTable.LookupFunc`. -/
  lookupFunc : String → Option Func
  /-- `goSymTable.LineToPC` (file already made absolute). -/
  lineToPC : String → Int → Except Err Nat
  /-- `filepath.Abs`. -/
  absPath : String → String
  /-- OS test that a thread sleeps in a syscall (`th.blocked()`). -/
  blocked : Nat → Bool
  /-- Injected failure of `registers(thread)` per thread id. -/
  regFail : Nat → Bool
  /-- Injected failure of `regs.SetPC` per thread id. -/
  setPCFail : Nat → Bool
  /-- Post-single-step program counter: thread id, old pc ↦ new pc. -/
  stepPC : Nat → Nat → Nat
  /-- Injected failure of the ptrace single-step per thread id. -/
  stepFail : Nat → Bool
  /-- Injected failure of the ptrace continue per thread id. -/
  resumeFail : Nat → Bool
  /-- Injected failure of `dbp.Halt()`. -/
  haltFail : Bool
  /-- Whether the hardware supports debug-register breakpoints. -/
  hwSupported : Bool
  /-- Injected OS failure when arming a breakpoint at an address. -/
  setFail : Nat → Bool
  /-- Injected failure of `clearHardwareBreakpoint` per slot index. -/
  hwClearFail : Nat → Bool
  /-- Injected failure of `writeMemory` per address. -/
  memWriteFail : Nat → Bool
  /-- `thread.curG()` outcome per thread id (runs `runtime.getg` in the
  target via `CallFn`; ptrace-driven, hence an oracle). -/
  curG : Nat → Except Err G
  /-- `trapWait` outcome per wait iteration: id of the stopped thread. -/
  trapRes : Nat → Except Err Nat
  /-- `allglenval` (DWARF read of the task-list length). -/
  allglenval : Except Err Nat
  /-- `addressFor` (DWARF symbol address lookup). -/
  addressFor : String → Except Err Nat
  /-- `thread.readMemory(addr, size)`: Go-style pair of data and error
  (runtime-structure reads, disjoint from the patched code bytes). -/
  readMem : Nat → Nat → List Nat × Option Err
  /-- `parseG` at a task-record address. -/
  parseG : Nat → Except Err G

/-- The mutable engine state (spec §3 "Session state"): hardware slot array,
software breakpoint map, target code memory, id counter, current breakpoint
and thread foci, per-thread registers, and the recorded action log. -/
structure DbpState where
  hw : List (Option BreakPoint)
  sw : List (Nat × BreakPoint)
  mem : Nat → Nat
  idCounter : Nat
  currentBp : Option BreakPoint
  currentTid : Nat
  threads : List (Nat × ThreadRegs)
  log : List Action

/-- Association-list lookup (stands in for the Go map read). -/
def alookup {α : Type} : List (Nat × α) → Nat → Option α
  | [], _ => none
  | (k, v) :: r, a => if k = a then some v else alookup r a

/-- First hardware slot (index from `i`) holding a breakpoint at `a`,
mirroring the scan order of the Go loops over `HWBreakPoints`. -/
def hwFindIdx : List (Option BreakPoint) → Nat → Nat → Option (Nat × BreakPoint)
  | [], _, _ => none
  | none :: r, a, i => hwFindIdx r a (i + 1)
  | some bp :: r, a, i =>
      if bp.addr = a then some (i, bp) else hwFindIdx r a (i + 1)

/-- Lowest free hardware slot, indices from `i`. -/
def freeSlot : List (Option BreakPoint) → Nat → Option Nat
  | [], _ => none
  | none :: _, i => some i
  | some _ :: r, i => freeSlot r (i + 1)

/-- First hardware slot holding a `Temp` breakpoint at `pc` (the scan in
`ThreadContext.clearTempBreakpoint`). -/
def hwTempAt : List (Option BreakPoint) → Nat → Option BreakPoint
  | [], _ => none
  | none :: r, a => hwTempAt r a
  | some bp :: r, a =>
      if bp.temp = true ∧ bp.addr = a then some bp else hwTempAt r a

/-- Go `uint64` decrement (`pc - 1` wraps at zero). -/
def sub1w (pc : Nat) : Nat := (pc + (2 ^ 64 - 1)) % 2 ^ 64

/-- Little-endian byte-list value (`binary.LittleEndian.Uint64`). -/
def leBytes : List Nat → Nat
  | [] => 0
  | b :: rest => b + 256 * leBytes rest

/-- Read 8 bytes little-endian from byte memory. -/
def readMem8 (m : Nat → Nat) (a : Nat) : Nat :=
  leBytes [m a, m (a + 1), m (a + 2), m (a + 3),
           m (a + 4), m (a + 5), m (a + 6), m (a + 7)]

/-- Write one byte of target memory (`writeMemory` with a 1-byte buffer). -/
def writeMem (s : DbpState) (a v : Nat) : DbpState :=
  { s with mem := fun x => if x = a then v else s.mem x }

/-- Update the register file of thread `tid`. -/
def updRegs (s : DbpState) (tid : Nat) (f : ThreadRegs → ThreadRegs) : DbpState :=
  { s with threads := s.threads.map (fun p => if p.1 = tid then (p.1, f p.2) else p) }

/-- Append one action to the log. -/
def addLog (s : DbpState) (a : Action) : DbpState :=
  { s with log := s.log ++ [a] }

/-- `thread.CurrentPC` via `Registers()` (failure injected by the env). -/
def ThreadContext.CurrentPC (env : Env) (s : DbpState) (tid : Nat) : Except Err Nat :=
  if env.regFail tid then .error (.external 0)
  else
    match alookup s.threads tid with
    | some r => .ok r.pc
    | none => .error (.threadNotFound tid)

/-- `thread.SetPC` via `regs.SetPC` (failure injected by the env). -/
def ThreadContext.SetPC (env : Env) (s : DbpState) (tid a : Nat) :
    Except Err Unit × DbpState :=
  if env.regFail tid then (.error (.external 0), s)
  else if env.setPCFail tid then (.error (.external 10), s)
  else (.ok (), addLog (updRegs s tid (fun r => { r with pc := a })) (.setPC tid a))

/-- Modelled from the spec: the OS single-step primitive (`thread.singleStep`
lives in an OS-specific file not under `src/`).  The post-step PC and the
failure outcome are injected via the environment. -/
def ThreadContext.singleStep (env : Env) (s : DbpState) (tid : Nat) :
    Except Err Unit × DbpState :=
  if env.stepFail tid then (.error (.external 1), s)
  else
    (.ok (),
     addLog (updRegs s tid (fun r => { r with pc := env.stepPC tid r.pc }))
       (.singleStep tid))

/-- Modelled from the spec: `thread.resume` delivers a ptrace continue
(OS-specific file not under `src/`); the outcome is injected via the
environment. -/
def ThreadContext.resume (env : Env) (s : DbpState) (tid : Nat) :
    Except Err Unit × DbpState :=
  if env.resumeFail tid then (.error (.external 2), s)
  else (.ok (), addLog s (.resumeTh tid))

/-- `dbp.clearBreakpoint` (proctl.go:223-247): hardware slots are scanned
first; a matching slot is nulled *before* the debug-register disarm is
attempted.  Otherwise the software map is consulted: the original byte is
written back and the entry deleted; a failed write aborts without deleting. -/
def DebuggedProcess.clearBreakpoint (env : Env) (s : DbpState) (tid a : Nat) :
    Except Err BreakPoint × DbpState :=
  match hwFindIdx s.hw a 0 with
  | some (i, bp) =>
      let s1 := addLog { s with hw := s.hw.set i none } (.clearBp a)
      if env.hwClearFail i then (.error (.external 3), s1)
      else (.ok bp, s1)
  | none =>
    match alookup s.sw a with
    | some bp =>
        if env.memWriteFail a then (.error .couldNotClear, s)
        else
          let s1 := writeMem s a bp.originalData
          let s2 := addLog { s1 with sw := s1.sw.filter (fun p => p.1 != a) } (.clearBp a)
          (.ok bp, s2)
    | none => (.error (.noBreakPoint a), s)

/-- `dbp.Clear` (proctl.go:219-221): clear in the current thread. -/
def DebuggedProcess.Clear (env : Env) (s : DbpState) (a : Nat) :
    Except Err BreakPoint × DbpState :=
  DebuggedProcess.clearBreakpoint env s s.currentTid a

/-- Modelled from the spec: `setBreakpoint` (§4.1 `set(address, thread_id)`)
is in an OS-specific file not under `src/`.  Fails `AlreadyExists` when the
address is present in either store; otherwise tries hardware first (lowest
free slot, when supported), falling back to software: save the original
byte, write the trap byte, insert into the map.  Ids are assigned from the
monotone counter.  An OS arming failure is injected via `env.setFail`. -/
def DebuggedProcess.setBreakpoint (env : Env) (s : DbpState) (tid a : Nat) :
    Except Err BreakPoint × DbpState :=
  if (hwFindIdx s.hw a 0).isSome || (alookup s.sw a).isSome then
    (.error (.breakPointExists a), s)
  else if env.setFail a then (.error (.external 4), s)
  else
    let nid := s.idCounter + 1
    match (if env.hwSupported then freeSlot s.hw 0 else none) with
    | some i =>
        let bp : BreakPoint := ⟨nid, a, false, 0⟩
        (.ok bp, addLog { s with hw := s.hw.set i (some bp), idCounter := nid }
          (.installBp a))
    | none =>
        let bp : BreakPoint := ⟨nid, a, false, s.mem a⟩
        let s1 := writeMem s a trapByte
        (.ok bp, addLog { s1 with sw := (a, bp) :: s1.sw, idCounter := nid }
          (.installBp a))

/-- `dbp.Break` (proctl.go:205-207): set in the current thread. -/
def DebuggedProcess.Break (env : Env) (s : DbpState) (a : Nat) :
    Except Err BreakPoint × DbpState :=
  DebuggedProcess.setBreakpoint env s s.currentTid a

/-- Mutation of the `Temp` field through the pointer returned by `Break`
(e.g. `bp.Temp = true` in threads.go:242): updates the stored record at that
address in whichever store holds it. -/
def setTempAt (s : DbpState) (a : Nat) (t : Bool) : DbpState :=
  { s with
    hw := s.hw.map (fun o =>
      match o with
      | some bp => if bp.addr = a then some { bp with temp := t } else some bp
      | none => none),
    sw := s.sw.map (fun p => if p.1 = a then (p.1, { p.2 with temp := t }) else p) }

/-- `dbp.FindBreakpoint` (proctl.go:496-506): hardware slots, then the
software map. -/
def DebuggedProcess.FindBreakpoint (s : DbpState) (pc : Nat) : Option BreakPoint :=
  match hwFindIdx s.hw pc 0 with
  | some (_, bp) => some bp
  | none => alookup s.sw pc

/-- `thread.Step` (threads.go:77-111).  When stopped past a software
breakpoint (`pc - 1` in the map): clear it, reset the PC to its address,
single-step, and re-install it through a deferred closure that copies the old
`Temp` flag onto the new record.  Because the re-install assigns the *named*
return value `err`, its (successful) outcome also overwrites any single-step
error — mirrored here by discarding the step error once the re-install
succeeds. -/
def ThreadContext.Step (env : Env) (s : DbpState) (tid : Nat) :
    Except Err Unit × DbpState :=
  match ThreadContext.CurrentPC env s tid with
  | .error e => (.error e, s)
  | .ok pc =>
    match alookup s.sw (sub1w pc) with
    | some bp =>
        match DebuggedProcess.clearBreakpoint env s s.currentTid bp.addr with
        | (.error e, s1) => (.error e, s1)
        | (.ok _, s1) =>
          match ThreadContext.SetPC env s1 tid bp.addr with
          | (.error _, s2) => (.error .couldNotSetRegisters, s2)
          | (.ok _, s2) =>
            let (_, s3) := ThreadContext.singleStep env s2 tid
            -- deferred: nbp, err = Break(bp.Addr); nbp.Temp = bp.Temp
            match DebuggedProcess.setBreakpoint env s3 s.currentTid bp.addr with
            | (.error e, s4) => (.error e, s4)
            | (.ok nbp, s4) => (.ok (), setTempAt s4 nbp.addr bp.temp)
    | none =>
        match ThreadContext.singleStep env s tid with
        | (.error _, s1) => (.error .couldNotStep, s1)
        | (.ok _, s1) => (.ok (), s1)

/-- `thread.Continue` (threads.go:57-73): when the software map contains
`pc - 1`, single-step over the breakpoint first, then resume. -/
def ThreadContext.Continue (env : Env) (s : DbpState) (tid : Nat) :
    Except Err Unit × DbpState :=
  match ThreadContext.CurrentPC env s tid with
  | .error e => (.error e, s)
  | .ok pc =>
    if (alookup s.sw (sub1w pc)).isSome then
      match ThreadContext.Step env s tid with
      | (.error _, s1) => (.error .couldNotStep, s1)
      | (.ok _, s1) => ThreadContext.resume env s1 tid
    else ThreadContext.resume env s tid

/-- The state reached inside a successful `thread.Step` over a software
breakpoint `bp`, just before the breakpoint is re-installed: the breakpoint
has been cleared (original byte restored, map entry deleted), the PC reset
to `bp.addr`, and the thread single-stepped. -/
def stepOverMid (env : Env) (s : DbpState) (tid : Nat) (bp : BreakPoint) : DbpState :=
  addLog
    (updRegs
      (addLog
        (updRegs
          (addLog
            { writeMem s bp.addr bp.originalData with
                sw := s.sw.filter (fun p => p.1 != bp.addr) }
            (.clearBp bp.addr))
          tid (fun r => { r with pc := bp.addr }))
        (.setPC tid bp.addr))
      tid (fun r => { r with pc := env.stepPC tid r.pc }))
    (.singleStep tid)

/-- `thread.ReturnAddressFromOffset` (threads.go:267-277): 8 little-endian
bytes at `SP + offset`.  The Go code panics when the registers cannot be
read; the panic is modelled as the distinguished error `panicRegisters`. -/
def ThreadContext.ReturnAddressFromOffset (env : Env) (s : DbpState)
    (tid : Nat) (offset : Int) : Except Err Nat :=
  if env.regFail tid then .error .panicRegisters
  else
    match alookup s.threads tid with
    | some r => .ok (readMem8 s.mem ((r.sp : Int) + offset).toNat)
    | none => .error (.threadNotFound tid)

/-- Inner loop of `thread.next` over the PCs of one candidate line
(threads.go:226-243): skip the current PC, substitute the frame's return
address for PCs not covered by the FDE, install a breakpoint and mark it
`Temp`; swallow `BreakPointExistsError`, propagate every other error. -/
def installPCs (env : Env) (tid curpc : Nat) (fde : FDE) :
    DbpState → List Nat → Except Err Unit × DbpState
  | s, [] => (.ok (), s)
  | s, pc :: rest =>
    if pc = curpc then installPCs env tid curpc fde s rest
    else
      match
        (if fde.cover pc then .ok pc
         else ThreadContext.ReturnAddressFromOffset env s tid
           (fde.returnAddressOffset curpc) : Except Err Nat) with
      | .error e => (.error e, s)
      | .ok pc2 =>
        match DebuggedProcess.Break env s pc2 with
        | (.error (.breakPointExists _), s1) => installPCs env tid curpc fde s1 rest
        | (.error e, s1) => (.error e, s1)
        | (.ok bp, s1) => installPCs env tid curpc fde (setTempAt s1 bp.addr true) rest

/-- Outer loop of `thread.next` over the candidate lines (threads.go:224-244). -/
def installLines (env : Env) (tid curpc : Nat) (fde : FDE) (file : String) :
    DbpState → List Nat → Except Err Unit × DbpState
  | s, [] => (.ok (), s)
  | s, l :: rest =>
    match installPCs env tid curpc fde s (env.allPCsForFileLine file l) with
    | (.error e, s1) => (.error e, s1)
    | (.ok _, s1) => installLines env tid curpc fde file s1 rest

/-- `thread.next` (threads.go:202-246).  With an empty candidate-line set:
read the frame's return address; if its function is `runtime.goexit`, report
the goroutine as exiting, otherwise succeed without installing anything.
Otherwise run the install loops. -/
def ThreadContext.next (env : Env) (s : DbpState) (tid curpc : Nat) (fde : FDE)
    (file : String) (line : Nat) : Except Err Unit × DbpState :=
  match env.nextLines file line with
  | .error e => (.error e, s)
  | .ok lines =>
    if lines = [] then
      match ThreadContext.ReturnAddressFromOffset env s tid
          (fde.returnAddressOffset curpc) with
      | .error e => (.error e, s)
      | .ok ret =>
        match (env.pcToLine ret).2.2 with
        | some fn =>
            if fn.name = "runtime.goexit" then
              match env.curG tid with
              | .error e => (.error e, s)
              | .ok g => (.error (.goroutineExiting g.id), s)
            else (.ok (), s)
        | none => (.ok (), s)
    else installLines env tid curpc fde file s lines

/-- `thread.cnext` (threads.go:248-255): documented stub for non-Go frames. -/
def ThreadContext.cnext (_env : Env) (s : DbpState) (_tid _curpc : Nat)
    (_fde : FDE) (_file : String) (_line : Nat) : Except Err Unit × DbpState :=
  (.ok (), s)

/-- Extension of a path (`filepath.Ext`): the suffix from the final dot of
the final path element, empty when there is none. -/
def extAux : List Char → List Char → String
  | [], _ => ""
  | '.' :: _, acc => String.mk ('.' :: acc)
  | '/' :: _, _ => ""
  | c :: rest, acc => extAux rest (c :: acc)

/-- `filepath.Ext`. -/
def strExt (p : String) : String := extAux p.toList.reverse []

/-- Breakpoint correction of the current PC (threads.go:167-171): when the
software map contains `pc - 1`, the true instruction address is the
breakpoint's address. -/
def correctedPC (s : DbpState) (pc0 : Nat) : Nat :=
  match alookup s.sw (sub1w pc0) with
  | some bp => bp.addr
  | none => pc0

/-- `thread.Next` (threads.go:161-192): correct the PC when stopped past a
software breakpoint, fetch the FDE and the source position, dispatch to
`next` (Go frames) or `cnext`, then `Continue` the thread. -/
def ThreadContext.Next (env : Env) (s : DbpState) (tid : Nat) :
    Except Err Unit × DbpState :=
  match ThreadContext.CurrentPC env s tid with
  | .error e => (.error e, s)
  | .ok pc0 =>
    match env.fdeForPC (correctedPC s pc0) with
    | .error e => (.error e, s)
    | .ok fde =>
      match
        (if strExt (env.pcToLine (correctedPC s pc0)).1 = ".go" then
           ThreadContext.next env s tid (correctedPC s pc0) fde
             (env.pcToLine (correctedPC s pc0)).1
             (env.pcToLine (correctedPC s pc0)).2.1
         else
           ThreadContext.cnext env s tid (correctedPC s pc0) fde
             (env.pcToLine (correctedPC s pc0)).1
             (env.pcToLine (correctedPC s pc0)).2.1) with
      | (.error e, s1) => (.error e, s1)
      | (.ok _, s1) => ThreadContext.Continue env s1 tid

/-- The `clearbp` closure of `thread.clearTempBreakpoint`
(threads.go:280-285): clear the breakpoint in the current thread, then reset
this thread's PC to its address. -/
def clearbpReset (env : Env) (s : DbpState) (tid : Nat) (bp : BreakPoint) :
    Except Err Unit × DbpState :=
  match DebuggedProcess.Clear env s bp.addr with
  | (.error e, s1) => (.error e, s1)
  | (.ok _, s1) => ThreadContext.SetPC env s1 tid bp.addr

/-- `thread.clearTempBreakpoint` (threads.go:279-295): only a `Temp`
breakpoint found at `pc` (hardware scan, then software map) is cleared, with
the PC reset to its address; otherwise a successful no-op. -/
def ThreadContext.clearTempBreakpoint (env : Env) (s : DbpState) (tid pc : Nat) :
    Except Err Unit × DbpState :=
  match hwTempAt s.hw pc with
  | some bp => clearbpReset env s tid bp
  | none =>
    match alookup s.sw pc with
    | some bp => if bp.temp then clearbpReset env s tid bp else (.ok (), s)
    | none => (.ok (), s)

/-- Hardware pass of `dbp.clearTempBreakpoints` (proctl.go:547-553): iterate
over a snapshot of the slot array, clearing every `Temp` entry. -/
def clearTempHW (env : Env) : DbpState → List (Option BreakPoint) →
    Except Err Unit × DbpState
  | s, [] => (.ok (), s)
  | s, none :: rest => clearTempHW env s rest
  | s, some bp :: rest =>
    if bp.temp then
      match DebuggedProcess.Clear env s bp.addr with
      | (.error e, s1) => (.error e, s1)
      | (.ok _, s1) => clearTempHW env s1 rest
    else clearTempHW env s rest

/-- Software pass of `dbp.clearTempBreakpoints` (proctl.go:554-561). -/
def clearTempSW (env : Env) : DbpState → List (Nat × BreakPoint) →
    Except Err Unit × DbpState
  | s, [] => (.ok (), s)
  | s, (_, bp) :: rest =>
    if bp.temp then
      match DebuggedProcess.Clear env s bp.addr with
      | (.error e, s1) => (.error e, s1)
      | (.ok _, s1) => clearTempSW env s1 rest
    else clearTempSW env s rest

/-- `dbp.clearTempBreakpoints` (proctl.go:546-563). -/
def DebuggedProcess.clearTempBreakpoints (env : Env) (s : DbpState) :
    Except Err Unit × DbpState :=
  match clearTempHW env s s.hw with
  | (.error e, s1) => (.error e, s1)
  | (.ok _, s1) => clearTempSW env s1 s1.sw

/-- `dbp.handleBreakpointOnThread` (proctl.go:564-586): identify the hit
breakpoint for the stopped thread — hardware by exact PC, software by
`pc - 1` — updating the current-breakpoint focus when found. -/
def DebuggedProcess.handleBreakpointOnThread (env : Env) (s : DbpState)
    (tid : Nat) : Except Err DbpState :=
  if (alookup s.threads tid).isNone then .error (.threadNotFound tid)
  else
    match ThreadContext.CurrentPC env s tid with
    | .error e => .error e
    | .ok pc =>
      match hwFindIdx s.hw pc 0 with
      | some (_, bp) => .ok { s with currentBp := some bp }
      | none =>
        match alookup s.sw (sub1w pc) with
        | some bp => .ok { s with currentBp := some bp }
        | none => .ok s

/-- Modelled from the spec: `trapWait` (§2 item 7, OS-specific file not under
`src/`) blocks until some traced thread stops; the id of that thread (or the
wait failure) is injected per iteration via `env.trapRes`, and the
breakpoint identification follows `handleBreakpointOnThread` from the
source. -/
def trapWait (env : Env) (s : DbpState) (iter : Nat) : Except Err (Nat × DbpState) :=
  match env.trapRes iter with
  | .error e => .error e
  | .ok tid =>
    match DebuggedProcess.handleBreakpointOnThread env s tid with
    | .error e => .error e
    | .ok s1 => .ok (tid, s1)

/-- Modelled from the spec: `dbp.Halt()` (§6) stops the traced process;
OS-specific, not under `src/`.  The outcome is injected via the env. -/
def DebuggedProcess.Halt (env : Env) (s : DbpState) : Except Err Unit × DbpState :=
  let s1 := addLog s .halt
  if env.haltFail then (.error (.external 9), s1) else (.ok (), s1)

/-- Per-goroutine record parsing loop of `dbp.GoroutinesInfo`
(proctl.go:448-454). -/
def parseGs (env : Env) (allgptr : Nat) : List Nat → Except Err (List G)
  | [] => .ok []
  | i :: rest =>
    match env.parseG (allgptr + i * 8) with
    | .error e => .error e
    | .ok g =>
      match parseGs env allgptr rest with
      | .error e => .error e
      | .ok gs => .ok (g :: gs)

/-- `dbp.GoroutinesInfo` (proctl.go:430-456).  Reads the task-list length
and the address of `runtime.allg`, then the base pointer, then parses each
record.  NOTE (faithful to the source): the error returned by the
`readMemory` of the base pointer at proctl.go:445 is assigned and never
checked — the walk continues with whatever bytes came back. -/
def DebuggedProcess.GoroutinesInfo (env : Env) : Except Err (List G) :=
  match env.allglenval with
  | .error e => .error e
  | .ok allglen =>
    match env.addressFor "runtime.allg" with
    | .error e => .error e
    | .ok allgentryaddr =>
      let fres := env.readMem allgentryaddr 8
      let allgptr := leBytes fres.1
      parseGs env allgptr (List.range allglen)

/-- Debug print block of `dbp.next` over goroutines waiting on channel
receive (proctl.go:278-313): per matching goroutine two frame lookups, each
of which can abort `next`; the memory reads themselves ignore errors and the
results are only printed. -/
def chanRecvScan (env : Env) (s : DbpState) : List G → Except Err Unit
  | [] => .ok ()
  | g :: rest =>
    if g.waitReason = "chan receive" then
      match env.fdeForPC g.pc with
      | .error e => .error e
      | .ok fde =>
        let ret1 := readMem8 s.mem ((g.sp : Int) + fde.returnAddressOffset g.pc).toNat
        match env.fdeForPC ret1 with
        | .error e => .error e
        | .ok _ => chanRecvScan env s rest
    else chanRecvScan env s rest

/-- Thread loop of `dbp.next` (proctl.go:314-329): blocked threads are
continued; the rest get a per-thread `Next`.  FAITHFUL TO THE SOURCE: the
`GoroutineExitingError` check at proctl.go:323-327 sits after an
unconditional `return err` and is dead code, so *every* per-thread failure —
including `GoroutineExitingError` — aborts the loop. -/
def nextThreadLoop (env : Env) : DbpState → List (Nat × ThreadRegs) →
    Except Err Unit × DbpState
  | s, [] => (.ok (), s)
  | s, (tid, _) :: rest =>
    if env.blocked tid then
      match ThreadContext.Continue env (addLog s (.contIssued tid)) tid with
      | (.error e, s1) => (.error e, s1)
      | (.ok _, s1) => nextThreadLoop env s1 rest
    else
      match ThreadContext.Next env (addLog s (.nextIssued tid)) tid with
      | (.error e, s1) => (.error e, s1)
      | (.ok _, s1) => nextThreadLoop env s1 rest

/-- Trap-wait loop of `dbp.next` (proctl.go:331-355), with an explicit step
budget standing in for the unbounded Go `for` loop: wait for a trap, clear a
hit temp breakpoint, and stop once the trapped thread runs the goroutine
that issued `next` (switching focus to it). -/
def trapLoop (env : Env) (curgId : Nat) : Nat → Nat → DbpState → Outcome × DbpState
  | 0, _, s => (.hung, s)
  | fuel + 1, iter, s =>
    match trapWait env s iter with
    | .error e => (.err e, s)
    | .ok (tid, s1) =>
      match
        (match s1.currentBp with
         | some cbp => ThreadContext.clearTempBreakpoint env s1 tid cbp.addr
         | none => (.ok (), s1)) with
      | (.error e, s2) => (.err e, s2)
      | (.ok _, s2) =>
        match env.curG tid with
        | .error e => (.err e, s2)
        | .ok tg =>
          if tg.id = curgId then
            (.ok, if s2.currentTid = tid then s2 else { s2 with currentTid := tid })
          else trapLoop env curgId fuel (iter + 1) s2

/-- Body of `dbp.next` after the deferred clear is registered
(proctl.go:274-356): goroutine inspection and the channel-receive debug
block, the per-thread loop, the trap-wait loop, and the final `Halt`. -/
def DebuggedProcess.nextCore (env : Env) (fuel : Nat) (s : DbpState)
    (curgId : Nat) : Outcome × DbpState :=
  match DebuggedProcess.GoroutinesInfo env with
  | .error e => (.err e, s)
  | .ok allg =>
    match chanRecvScan env s allg with
    | .error e => (.err e, s)
    | .ok _ =>
      match nextThreadLoop env s s.threads with
      | (.error e, s1) => (.err e, s1)
      | (.ok _, s1) =>
        match trapLoop env curgId fuel 0 s1 with
        | (.hung, s2) => (.hung, s2)
        | (.err e, s2) => (.err e, s2)
        | (.ok, s2) =>
          match DebuggedProcess.Halt env s2 with
          | (.error e, s3) => (.err e, s3)
          | (.ok _, s3) => (.ok, s3)

/-- `dbp.next` (proctl.go:268-357): fetch the current goroutine, then run the
body with `clearTempBreakpoints` deferred — it runs on every exit (success
or error) once registered, its own error being discarded, but not when the
trap loop never exits. -/
def DebuggedProcess.next (env : Env) (fuel : Nat) (s : DbpState) :
    Outcome × DbpState :=
  match env.curG s.currentTid with
  | .error e => (.err e, s)
  | .ok curg =>
    match DebuggedProcess.nextCore env fuel s curg.id with
    | (.hung, s1) => (.hung, s1)
    | (o, s1) => (o, (DebuggedProcess.clearTempBreakpoints env s1).2)

/-- `dbp.resume` (proctl.go:370-400): after a trap, refocus to the stopped
thread and classify the stop in order — non-temp current breakpoint: halt;
PC inside `runtime.breakpoint`: step twice then halt; otherwise an
unrecognized-trap failure naming the PC. -/
def DebuggedProcess.resume (env : Env) (s : DbpState) :
    Except Err Unit × DbpState :=
  match trapWait env s 0 with
  | .error e => (.error e, s)
  | .ok (tid, s1) =>
    let s2 := if s1.currentTid = tid then s1 else { s1 with currentTid := tid }
    match ThreadContext.CurrentPC env s2 tid with
    | .error e => (.error e, s2)
    | .ok pc =>
      let fallthru := fun (s' : DbpState) =>
        match env.pcToFunc pc with
        | some fn =>
            if fn.name = "runtime.breakpoint" then
              match ThreadContext.Step env s' tid with
              | (.error e, sa) => ((.error e : Except Err Unit), sa)
              | (.ok _, sa) =>
                match ThreadContext.Step env sa tid with
                | (.error e, sb) => (.error e, sb)
                | (.ok _, sb) => DebuggedProcess.Halt env sb
            else (.error (.unrecognized pc), s')
        | none => (.error (.unrecognized pc), s')
      match s2.currentBp with
      | some cbp =>
          if cbp.temp = false then DebuggedProcess.Halt env s2
          else fallthru s2
      | none => fallthru s2

/-- One decimal digit. -/
def decDigit (c : Char) : Option Nat :=
  if '0' ≤ c ∧ c ≤ '9' then some (c.toNat - '0'.toNat) else none

/-- One digit in a base up to 16 (lower or upper case letters). -/
def baseDigit (base : Nat) (c : Char) : Option Nat :=
  let v :=
    if '0' ≤ c ∧ c ≤ '9' then some (c.toNat - '0'.toNat)
    else if 'a' ≤ c ∧ c ≤ 'f' then some (c.toNat - 'a'.toNat + 10)
    else if 'A' ≤ c ∧ c ≤ 'F' then some (c.toNat - 'A'.toNat + 10)
    else none
  match v with
  | some d => if d < base then some d else none
  | none => none

/-- Accumulate the digits of a base-`base` literal. -/
def digitsVal (base : Nat) : Nat → List Char → Option Nat
  | acc, [] => some acc
  | acc, c :: rest =>
    match baseDigit base c with
    | some d => digitsVal base (acc * base + d) rest
    | none => none

/-- `strconv.ParseUint(str, 0, 64)` as the source's Go toolchain defines it:
`0x`/`0X` prefix is hexadecimal, a leading `0` is octal, otherwise decimal;
no sign; at least one digit; values at or above `2^64` are out of range. -/
def parseUint0 (str : String) : Option Nat :=
  let val :=
    match str.toList with
    | [] => none
    | '0' :: 'x' :: rest => if rest = [] then none else digitsVal 16 0 rest
    | '0' :: 'X' :: rest => if rest = [] then none else digitsVal 16 0 rest
    | '0' :: rest => digitsVal 8 0 rest
    | l => digitsVal 10 0 l
  match val with
  | some v => if v < 2 ^ 64 then some v else none
  | none => none

/-- `strconv.Atoi`: optional sign, decimal digits. -/
def atoi (str : String) : Option Int :=
  match str.toList with
  | '-' :: rest =>
      if rest = [] then none
      else (digitsVal 10 0 rest).map (fun v => -(v : Int))
  | '+' :: rest =>
      if rest = [] then none
      else (digitsVal 10 0 rest).map (fun v => (v : Int))
  | l => if l = [] then none else (digitsVal 10 0 l).map (fun v => (v : Int))

/-- Breakpoint-id scan of `FindLocation` over the hardware slots
(proctl.go:168-175). -/
def hwFindById : List (Option BreakPoint) → Nat → Option BreakPoint
  | [], _ => none
  | none :: r, i => hwFindById r i
  | some bp :: r, i => if bp.id = i then some bp else hwFindById r i

/-- Breakpoint-id scan of `FindLocation` over the software map
(proctl.go:176-180). -/
def swFindById : List (Nat × BreakPoint) → Nat → Option BreakPoint
  | [], _ => none
  | (_, bp) :: r, i => if bp.id = i then some bp else swFindById r i

/-- `dbp.FindLocation` (proctl.go:133-184): `file:line` when the string
contains a colon; else a function name; else an integer that is first tried
as a breakpoint id (hardware slots, then software map) and finally returned
as a raw address. -/
def DebuggedProcess.FindLocation (env : Env) (s : DbpState) (str : String) :
    Except Err Nat :=
  if str.toList.contains ':' then
    let fl := str.splitOn ":"
    let fileName := env.absPath (fl.headD "")
    match atoi ((fl.drop 1).headD "") with
    | none => .error (.external 5)
    | some l => env.lineToPC fileName l
  else
    match env.lookupFunc str with
    | some fn => .ok fn.entry
    | none =>
      match parseUint0 str with
      | none => .error (.couldNotFindLocation str)
      | some i =>
        match hwFindById s.hw i with
        | some bp => .ok bp.addr
        | none =>
          match swFindById s.sw i with
          | some bp => .ok bp.addr
          | none => .ok i

/-! ### Well-formedness of the breakpoint table

Spec §3 invariants: at most one breakpoint per address across both stores,
software keys match the stored address, and an installed software
breakpoint's address holds the trap byte. -/

/-- Addresses occupied in the hardware slot array. -/
def hwAddrList (hw : List (Option BreakPoint)) : List Nat :=
  hw.filterMap (fun o => o.map BreakPoint.addr)

/-- Keys of the software map. -/
def swKeys (sw : List (Nat × BreakPoint)) : List Nat := sw.map Prod.fst

/-- All occupied breakpoint addresses. -/
def bpAddrList (s : DbpState) : List Nat := hwAddrList s.hw ++ swKeys s.sw

/-- Breakpoint-table well-formedness (spec §3): distinct addresses across
both stores, keys matching addresses, trap byte present under every
software breakpoint. -/
def wf (s : DbpState) : Prop :=
  (bpAddrList s).Nodup ∧ (∀ p ∈ s.sw, p.2.addr = p.1) ∧
    (∀ p ∈ s.sw, s.mem p.1 = trapByte)

/-- Decidable test that no breakpoint in either store has `Temp` set. -/
def noTempB (s : DbpState) : Bool :=
  s.hw.all (fun o => match o with | some bp => !bp.temp | none => true) &&
    s.sw.all (fun p => !p.2.temp)

/-! ### Concrete environments and states used to evaluate the theorems -/

/-- A frame descriptor covering everything with zero offsets. -/
def flatFDE : FDE := ⟨fun _ => true, fun _ => 0, fun _ => 0⟩

/-- A benign environment: every collaborator succeeds, no OS failures,
hardware breakpoints unsupported (forcing the software path). -/
def baseEnv : Env where
  nextLines := fun _ _ => .ok []
  allPCsForFileLine := fun _ _ => []
  fdeForPC := fun _ => .ok flatFDE
  pcToLine := fun _ => ("main.go", 5, none)
  pcToFunc := fun _ => none
  lookupFunc := fun _ => none
  lineToPC := fun _ _ => .error (.external 7)
  absPath := fun x => x
  blocked := fun _ => false
  regFail := fun _ => false
  setPCFail := fun _ => false
  stepPC := fun _ pc => pc + 1
  stepFail := fun _ => false
  resumeFail := fun _ => false
  haltFail := false
  hwSupported := false
  setFail := fun _ => false
  hwClearFail := fun _ => false
  memWriteFail := fun _ => false
  curG := fun _ => .ok ⟨7, 0, 0, 0, "main.go", 1, ""⟩
  trapRes := fun _ => .ok 1
  allglenval := .ok 0
  addressFor := fun _ => .ok 0
  readMem := fun _ _ => ([], none)
  parseG := fun _ => .error (.external 8)

/-- A small well-formed state: one software breakpoint at 100 (original
byte 7, trap byte installed), one thread stopped just past it. -/
def baseState : DbpState where
  hw := [none, none, none, none]
  sw := [(100, ⟨1, 100, false, 7⟩)]
  mem := fun a => if a = 100 then trapByte else 0
  idCounter := 1
  currentBp := none
  currentTid := 1
  threads := [(1, ⟨101, 500⟩)]
  log := []

/-- Environment for the session-`next` abort scenario: thread 1 sits at the
tail of its function (empty next-line set) and its frame returns into
`runtime.goexit`; thread 2 is also live.  Current goroutine has id 7. -/
def envC1 : Env :=
  { baseEnv with
    pcToLine := fun pc =>
      if pc = 0 then ("main.go", 9, some ⟨"runtime.goexit", 0, 99⟩)
      else ("main.go", 5, none) }

/-- State for the session-`next` abort scenario: two unblocked threads, no
breakpoints installed. -/
def stC1 : DbpState where
  hw := [none, none, none, none]
  sw := []
  mem := fun _ => 0
  idCounter := 0
  currentBp := none
  currentTid := 1
  threads := [(1, ⟨200, 500⟩), (2, ⟨300, 600⟩)]
  log := []

/-- The goroutine record the walk of `GoroutinesInfo` produces in the
`envC6` scenario. -/
def gC6 : G := ⟨3, 40, 50, 60, "main.go", 12, "chan receive"⟩

/-- Environment in which the `readMemory` of the `runtime.allg` base
pointer *fails* (error component set) while everything else succeeds: one
goroutine record parses at the address decoded from the returned bytes. -/
def envC6 : Env :=
  { baseEnv with
    allglenval := .ok 1
    addressFor := fun _ => .ok 64
    readMem := fun a n =>
      if a = 64 ∧ n = 8 then ([16, 0, 0, 0, 0, 0, 0, 0], some (.external 6))
      else ([], none)
    parseG := fun a => if a = 16 then .ok gC6 else .error (.external 8) }

/-- Environment whose first trap-wait fails, so a session `next` exits
through an error path right after the per-thread loop. -/
def envC2w : Env := { baseEnv with trapRes := fun _ => .error (.external 5) }

/-- Environment whose debug-register disarm fails for slot 0. -/
def envC9 : Env := { baseEnv with hwClearFail := fun i => i == 0 }

/-- Environment whose symbol table knows a single function `main.main`
with entry PC 4096. -/
def envC8 : Env :=
  { baseEnv with
    lookupFunc := fun str =>
      if str = "main.main" then some ⟨"main.main", 4096, 5000⟩ else none }

/-- State with one hardware breakpoint (slot 0, address 200) and one
software breakpoint at 100. -/
def stC9 : DbpState := { baseState with hw := [some ⟨2, 200, false, 0⟩, none, none, none] }

/-! ### Lemmas about the lookup scans -/

theorem alookup_some {α : Type} :
    ∀ {l : List (Nat × α)} {a : Nat} {v : α}, alookup l a = some v → (a, v) ∈ l := by
  intro l
  induction l with
  | nil => intro a v h; simp [alookup] at h
  | cons p r ih =>
    intro a v h
    obtain ⟨k, w⟩ := p
    unfold alookup at h
    by_cases hk : k = a
    · simp [hk] at h
      subst hk h
      exact List.mem_cons_self _ _
    · simp [hk] at h
      exact List.mem_cons_of_mem _ (ih h)

theorem alookup_eq_none {α : Type} :
    ∀ {l : List (Nat × α)} {a : Nat},
      alookup l a = none ↔ a ∉ l.map Prod.fst := by
  intro l
  induction l with
  | nil => intro a; simp [alookup]
  | cons p r ih =>
    intro a
    obtain ⟨k, w⟩ := p
    unfold alookup
    by_cases hk : k = a
    · simp [hk]
    · rw [if_neg hk, ih]
      simp only [List.map_cons, List.mem_cons]
      constructor
      · intro h hmem
        rcases hmem with h1 | h1
        · exact hk h1.symm
        · exact h h1
      · intro h h1
        exact h (Or.inr h1)

theorem alookup_of_mem {α : Type} :
    ∀ {l : List (Nat × α)} {a : Nat} {v : α},
      (a, v) ∈ l → (l.map Prod.fst).Nodup → alookup l a = some v := by
  intro l
  induction l with
  | nil => intro a v h _; simp at h
  | cons p r ih =>
    intro a v h hnd
    obtain ⟨k, w⟩ := p
    simp only [List.map_cons, List.nodup_cons] at hnd
    rcases List.mem_cons.mp h with h1 | h1
    · cases h1
      simp [alookup]
    · have hka : k ≠ a := by
        intro hk
        exact hnd.1 (hk ▸ (List.mem_map.mpr ⟨(a, v), h1, rfl⟩))
      simp [alookup, hka, ih h1 hnd.2]

theorem hwAddrList_cons_none {r : List (Option BreakPoint)} :
    hwAddrList (none :: r) = hwAddrList r := rfl

theorem hwAddrList_cons_some {bp : BreakPoint} {r : List (Option BreakPoint)} :
    hwAddrList (some bp :: r) = bp.addr :: hwAddrList r := rfl

theorem hwFindIdx_shift :
    ∀ (l : List (Option BreakPoint)) (a k : Nat),
      hwFindIdx l a k = (hwFindIdx l a 0).map (fun p => (p.1 + k, p.2)) := by
  intro l
  induction l with
  | nil => intro a k; rfl
  | cons ob r ih =>
    intro a k
    cases ob with
    | none =>
      show hwFindIdx r a (k + 1) = (hwFindIdx r a 1).map _
      rw [ih a (k + 1), ih a 1, Option.map_map]
      rcases hwFindIdx r a 0 with _ | p
      · rfl
      · simp [Function.comp, Nat.add_assoc, Nat.add_comm 1 k]
    | some bp =>
      by_cases hb : bp.addr = a
      · simp [hwFindIdx, hb]
      · simp only [hwFindIdx, if_neg hb]
        rw [ih a (k + 1), ih a 1, Option.map_map]
        rcases hwFindIdx r a 0 with _ | p
        · rfl
        · simp [Function.comp, Nat.add_assoc, Nat.add_comm 1 k]

theorem hwFindIdx_zero_some :
    ∀ {l : List (Option BreakPoint)} {a i : Nat} {bp : BreakPoint},
      hwFindIdx l a 0 = some (i, bp) → l[i]? = some (some bp) ∧ bp.addr = a := by
  intro l
  induction l with
  | nil => intro a i bp h; simp [hwFindIdx] at h
  | cons ob r ih =>
    intro a i bp h
    cases ob with
    | none =>
      have h1 : hwFindIdx r a 1 = some (i, bp) := h
      rw [hwFindIdx_shift r a 1] at h1
      rcases hj : hwFindIdx r a 0 with _ | p
      · rw [hj] at h1; simp at h1
      · rw [hj] at h1
        obtain ⟨j, bp'⟩ := p
        simp at h1
        obtain ⟨hji, hbp⟩ := h1
        subst hbp
        obtain ⟨hg, ha⟩ := ih hj
        refine ⟨?_, ha⟩
        rw [← hji]
        simpa using hg
    | some bp0 =>
      by_cases hb : bp0.addr = a
      · simp [hwFindIdx, hb] at h
        obtain ⟨hi, hbp⟩ := h
        subst hbp
        exact ⟨by simp [← hi], hb⟩
      · have h1 : hwFindIdx r a 1 = some (i, bp) := by
          simpa [hwFindIdx, hb] using h
        rw [hwFindIdx_shift r a 1] at h1
        rcases hj : hwFindIdx r a 0 with _ | p
        · rw [hj] at h1; simp at h1
        · rw [hj] at h1
          obtain ⟨j, bp'⟩ := p
          simp at h1
          obtain ⟨hji, hbp⟩ := h1
          subst hbp
          obtain ⟨hg, ha⟩ := ih hj
          refine ⟨?_, ha⟩
          rw [← hji]
          simpa using hg

theorem hwFindIdx_eq_none :
    ∀ {l : List (Option BreakPoint)} {a : Nat},
      hwFindIdx l a 0 = none ↔ a ∉ hwAddrList l := by
  intro l
  induction l with
  | nil => intro a; simp [hwFindIdx, hwAddrList]
  | cons ob r ih =>
    intro a
    cases ob with
    | none =>
      show hwFindIdx r a 1 = none ↔ _
      rw [hwFindIdx_shift r a 1, hwAddrList_cons_none, ← ih]
      rcases hwFindIdx r a 0 with _ | p <;> simp
    | some bp =>
      by_cases hb : bp.addr = a
      · simp [hwFindIdx, hb, hwAddrList_cons_some]
      · simp only [hwFindIdx, if_neg hb]
        rw [hwFindIdx_shift r a 1, hwAddrList_cons_some]
        have hmm : a ∈ bp.addr :: hwAddrList r ↔ a ∈ hwAddrList r := by
          constructor
          · intro h
            rcases List.mem_cons.mp h with h1 | h1
            · exact absurd h1.symm hb
            · exact h1
          · exact fun h => List.mem_cons_of_mem _ h
        rw [hmm, ← ih]
        rcases hwFindIdx r a 0 with _ | p <;> simp

theorem freeSlot_shift :
    ∀ (l : List (Option BreakPoint)) (k : Nat),
      freeSlot l k = (freeSlot l 0).map (· + k) := by
  intro l
  induction l with
  | nil => intro k; rfl
  | cons ob r ih =>
    intro k
    cases ob with
    | none => simp [freeSlot]
    | some bp =>
      show freeSlot r (k + 1) = (freeSlot r 1).map _
      rw [ih (k + 1), ih 1, Option.map_map]
      rcases freeSlot r 0 with _ | j
      · rfl
      · simp [Function.comp, Nat.add_assoc, Nat.add_comm 1 k]

theorem freeSlot_spec :
    ∀ {l : List (Option BreakPoint)} {i : Nat},
      freeSlot l 0 = some i → l[i]? = some none := by
  intro l
  induction l with
  | nil => intro i h; simp [freeSlot] at h
  | cons ob r ih =>
    intro i h
    cases ob with
    | none =>
      simp [freeSlot] at h
      subst h; simp
    | some bp =>
      have h1 : freeSlot r 1 = some i := h
      rw [freeSlot_shift r 1] at h1
      rcases hj : freeSlot r 0 with _ | j
      · rw [hj] at h1; simp at h1
      · rw [hj] at h1
        simp at h1
        rw [← h1]
        simpa using ih hj

/-! ### Field-access simp lemmas for the state transformers -/

@[simp] theorem addLog_hw (s : DbpState) (a : Action) : (addLog s a).hw = s.hw := rfl

@[simp] theorem addLog_sw (s : DbpState) (a : Action) : (addLog s a).sw = s.sw := rfl

@[simp] theorem addLog_mem (s : DbpState) (a : Action) : (addLog s a).mem = s.mem := rfl

@[simp] theorem addLog_threads (s : DbpState) (a : Action) :
    (addLog s a).threads = s.threads := rfl

@[simp] theorem addLog_currentTid (s : DbpState) (a : Action) :
    (addLog s a).currentTid = s.currentTid := rfl

@[simp] theorem addLog_currentBp (s : DbpState) (a : Action) :
    (addLog s a).currentBp = s.currentBp := rfl

@[simp] theorem addLog_log (s : DbpState) (a : Action) :
    (addLog s a).log = s.log ++ [a] := rfl

@[simp] theorem writeMem_hw (s : DbpState) (a v : Nat) : (writeMem s a v).hw = s.hw := rfl

@[simp] theorem writeMem_sw (s : DbpState) (a v : Nat) : (writeMem s a v).sw = s.sw := rfl

@[simp] theorem writeMem_threads (s : DbpState) (a v : Nat) :
    (writeMem s a v).threads = s.threads := rfl

@[simp] theorem writeMem_currentTid (s : DbpState) (a v : Nat) :
    (writeMem s a v).currentTid = s.currentTid := rfl

@[simp] theorem writeMem_log (s : DbpState) (a v : Nat) :
    (writeMem s a v).log = s.log := rfl

theorem writeMem_mem (s : DbpState) (a v x : Nat) :
    (writeMem s a v).mem x = if x = a then v else s.mem x := rfl

@[simp] theorem updRegs_hw (s : DbpState) (tid : Nat) (f : ThreadRegs → ThreadRegs) :
    (updRegs s tid f).hw = s.hw := rfl

@[simp] theorem updRegs_sw (s : DbpState) (tid : Nat) (f : ThreadRegs → ThreadRegs) :
    (updRegs s tid f).sw = s.sw := rfl

@[simp] theorem updRegs_mem (s : DbpState) (tid : Nat) (f : ThreadRegs → ThreadRegs) :
    (updRegs s tid f).mem = s.mem := rfl

@[simp] theorem updRegs_currentTid (s : DbpState) (tid : Nat) (f : ThreadRegs → ThreadRegs) :
    (updRegs s tid f).currentTid = s.currentTid := rfl

@[simp] theorem updRegs_log (s : DbpState) (tid : Nat) (f : ThreadRegs → ThreadRegs) :
    (updRegs s tid f).log = s.log := rfl

@[simp] theorem setTempAt_mem (s : DbpState) (a : Nat) (t : Bool) :
    (setTempAt s a t).mem = s.mem := rfl

@[simp] theorem setTempAt_threads (s : DbpState) (a : Nat) (t : Bool) :
    (setTempAt s a t).threads = s.threads := rfl

@[simp] theorem setTempAt_currentTid (s : DbpState) (a : Nat) (t : Bool) :
    (setTempAt s a t).currentTid = s.currentTid := rfl

@[simp] theorem setTempAt_log (s : DbpState) (a : Nat) (t : Bool) :
    (setTempAt s a t).log = s.log := rfl

/-! ### Address-list effects of slot updates -/

theorem hwAddrList_set_none_sublist :
    ∀ (l : List (Option BreakPoint)) (i : Nat),
      (hwAddrList (l.set i none)).Sublist (hwAddrList l) := by
  intro l
  induction l with
  | nil => intro i; simp [hwAddrList]
  | cons ob r ih =>
    intro i
    cases i with
    | zero =>
      cases ob with
      | none => simp [List.set]
      | some bp =>
        simp only [List.set, hwAddrList_cons_none, hwAddrList_cons_some]
        exact (List.Sublist.refl _).cons _
    | succ j =>
      cases ob with
      | none =>
        simp only [List.set, hwAddrList_cons_none]
        exact ih j
      | some bp =>
        simp only [List.set, hwAddrList_cons_some]
        exact (ih j).cons₂ _

theorem notMem_hwAddrList_set_none :
    ∀ {l : List (Option BreakPoint)} {a i : Nat} {bp : BreakPoint},
      (hwAddrList l).Nodup → hwFindIdx l a 0 = some (i, bp) →
      a ∉ hwAddrList (l.set i none) := by
  intro l
  induction l with
  | nil => intro a i bp _ h; simp [hwFindIdx] at h
  | cons ob r ih =>
    intro a i bp hnd h
    cases ob with
    | none =>
      have h1 : hwFindIdx r a 1 = some (i, bp) := h
      rw [hwFindIdx_shift r a 1] at h1
      rcases hj : hwFindIdx r a 0 with _ | p
      · rw [hj] at h1; simp at h1
      · rw [hj] at h1
        obtain ⟨j, bp'⟩ := p
        simp at h1
        obtain ⟨hji, hbp⟩ := h1
        subst hbp
        rw [← hji]
        simp only [List.set, hwAddrList_cons_none]
        exact ih (by simpa [hwAddrList_cons_none] using hnd) hj
    | some bp0 =>
      by_cases hb : bp0.addr = a
      · simp [hwFindIdx, hb] at h
        obtain ⟨hi, hbp⟩ := h
        rw [← hi]
        simp only [List.set, hwAddrList_cons_none]
        rw [hwAddrList_cons_some] at hnd
        rw [← hb]
        exact (List.nodup_cons.mp hnd).1
      · have h1 : hwFindIdx r a 1 = some (i, bp) := by
          simpa [hwFindIdx, hb] using h
        rw [hwFindIdx_shift r a 1] at h1
        rcases hj : hwFindIdx r a 0 with _ | p
        · rw [hj] at h1; simp at h1
        · rw [hj] at h1
          obtain ⟨j, bp'⟩ := p
          simp at h1
          obtain ⟨hji, hbp⟩ := h1
          subst hbp
          rw [← hji]
          simp only [List.set, hwAddrList_cons_some]
          intro hmem
          rcases List.mem_cons.mp hmem with h2 | h2
          · exact hb h2.symm
          · rw [hwAddrList_cons_some] at hnd
            exact ih (List.nodup_cons.mp hnd).2 hj h2

theorem hwAddrList_set_some_perm :
    ∀ {l : List (Option BreakPoint)} {i : Nat} (bp : BreakPoint),
      l[i]? = some none →
      (hwAddrList (l.set i (some bp))).Perm (bp.addr :: hwAddrList l) := by
  intro l
  induction l with
  | nil => intro i bp h; simp at h
  | cons ob r ih =>
    intro i bp h
    cases i with
    | zero =>
      simp at h
      subst h
      simp only [List.set, hwAddrList_cons_some, hwAddrList_cons_none]
      exact List.Perm.refl _
    | succ j =>
      have hr : r[j]? = some none := by simpa using h
      cases ob with
      | none =>
        simp only [List.set, hwAddrList_cons_none]
        exact ih bp hr
      | some bp0 =>
        simp only [List.set, hwAddrList_cons_some]
        exact ((ih bp hr).cons bp0.addr).trans (List.Perm.swap _ _ _)

theorem hwAddrList_tempMap (a : Nat) (t : Bool) :
    ∀ l : List (Option BreakPoint),
      hwAddrList (l.map (fun o =>
        match o with
        | some bp => if bp.addr = a then some { bp with temp := t } else some bp
        | none => none)) = hwAddrList l := by
  intro l
  induction l with
  | nil => rfl
  | cons ob r ih =>
    cases ob with
    | none => simpa [hwAddrList_cons_none] using ih
    | some bp =>
      by_cases hb : bp.addr = a
      · simp only [List.map_cons]
        rw [if_pos hb, hwAddrList_cons_some, hwAddrList_cons_some, ih]
      · simp only [List.map_cons]
        rw [if_neg hb, hwAddrList_cons_some, hwAddrList_cons_some, ih]

theorem swKeys_tempMap (a : Nat) (t : Bool) :
    ∀ l : List (Nat × BreakPoint),
      swKeys (l.map (fun p => if p.1 = a then (p.1, { p.2 with temp := t }) else p)) =
        swKeys l := by
  intro l
  induction l with
  | nil => rfl
  | cons p r ih =>
    by_cases hp : p.1 = a
    · simp only [List.map_cons, if_pos hp, swKeys, List.map_cons] at *
      rw [ih]
    · simp only [List.map_cons, if_neg hp, swKeys, List.map_cons] at *
      rw [ih]

/-! ### Well-formedness preservation of the primitive table operations -/

theorem wf_of_eq {s s' : DbpState} (h : wf s)
    (hhw : s'.hw = s.hw) (hsw : s'.sw = s.sw) (hm : s'.mem = s.mem) : wf s' := by
  unfold wf bpAddrList at *
  rw [hhw, hsw, hm]
  exact h

theorem wf_setTempAt {s : DbpState} (h : wf s) (a : Nat) (t : Bool) :
    wf (setTempAt s a t) := by
  obtain ⟨hnd, hkeys, htrap⟩ := h
  refine ⟨?_, ?_, ?_⟩
  · unfold bpAddrList at *
    show ((hwAddrList (s.hw.map _)) ++ swKeys (s.sw.map _)).Nodup
    rw [hwAddrList_tempMap, swKeys_tempMap]
    exact hnd
  · intro p hp
    show p.2.addr = p.1
    rcases List.mem_map.mp hp with ⟨q, hq, hpq⟩
    by_cases h1 : q.1 = a
    · rw [if_pos h1] at hpq
      rw [← hpq]
      exact hkeys q hq
    · rw [if_neg h1] at hpq
      rw [← hpq]
      exact hkeys q hq
  · intro p hp
    show (setTempAt s a t).mem p.1 = trapByte
    rw [setTempAt_mem]
    rcases List.mem_map.mp hp with ⟨q, hq, hpq⟩
    by_cases h1 : q.1 = a
    · rw [if_pos h1] at hpq
      rw [← hpq]
      exact htrap q hq
    · rw [if_neg h1] at hpq
      rw [← hpq]
      exact htrap q hq

/-! ### Characterizations of clear and set -/

theorem clearBreakpoint_hw_ok {env : Env} {s : DbpState} {tid a i : Nat}
    {bp : BreakPoint} (hfind : hwFindIdx s.hw a 0 = some (i, bp))
    (hcf : env.hwClearFail i = false) :
    DebuggedProcess.clearBreakpoint env s tid a =
      (.ok bp, addLog { s with hw := s.hw.set i none } (.clearBp a)) := by
  unfold DebuggedProcess.clearBreakpoint
  rw [hfind]
  simp [hcf]

theorem clearBreakpoint_hw_fail {env : Env} {s : DbpState} {tid a i : Nat}
    {bp : BreakPoint} (hfind : hwFindIdx s.hw a 0 = some (i, bp))
    (hcf : env.hwClearFail i = true) :
    DebuggedProcess.clearBreakpoint env s tid a =
      (.error (.external 3), addLog { s with hw := s.hw.set i none } (.clearBp a)) := by
  unfold DebuggedProcess.clearBreakpoint
  rw [hfind]
  simp [hcf]

theorem clearBreakpoint_sw_ok {env : Env} {s : DbpState} {tid a : Nat}
    {bp : BreakPoint} (hhw : hwFindIdx s.hw a 0 = none)
    (hsw : alookup s.sw a = some bp) (hmw : env.memWriteFail a = false) :
    DebuggedProcess.clearBreakpoint env s tid a =
      (.ok bp,
       addLog { writeMem s a bp.originalData with
                  sw := s.sw.filter (fun p => p.1 != a) } (.clearBp a)) := by
  unfold DebuggedProcess.clearBreakpoint
  rw [hhw, hsw]
  simp [hmw]

theorem clearBreakpoint_none {env : Env} {s : DbpState} {tid a : Nat}
    (hhw : hwFindIdx s.hw a 0 = none) (hsw : alookup s.sw a = none) :
    DebuggedProcess.clearBreakpoint env s tid a = (.error (.noBreakPoint a), s) := by
  unfold DebuggedProcess.clearBreakpoint
  rw [hhw, hsw]

theorem setBreakpoint_exists {env : Env} {s : DbpState} {tid a : Nat}
    (h : ((hwFindIdx s.hw a 0).isSome || (alookup s.sw a).isSome) = true) :
    DebuggedProcess.setBreakpoint env s tid a = (.error (.breakPointExists a), s) := by
  unfold DebuggedProcess.setBreakpoint
  rw [if_pos h]

theorem setBreakpoint_oserr {env : Env} {s : DbpState} {tid a : Nat}
    (h : ((hwFindIdx s.hw a 0).isSome || (alookup s.sw a).isSome) = false)
    (hsf : env.setFail a = true) :
    DebuggedProcess.setBreakpoint env s tid a = (.error (.external 4), s) := by
  unfold DebuggedProcess.setBreakpoint
  rw [if_neg (by simp [h]), if_pos hsf]

theorem setBreakpoint_hw_ok {env : Env} {s : DbpState} {tid a i : Nat}
    (h : ((hwFindIdx s.hw a 0).isSome || (alookup s.sw a).isSome) = false)
    (hsf : env.setFail a = false)
    (hslot : (if env.hwSupported then freeSlot s.hw 0 else none) = some i) :
    DebuggedProcess.setBreakpoint env s tid a =
      (.ok ⟨s.idCounter + 1, a, false, 0⟩,
       addLog { s with hw := s.hw.set i (some ⟨s.idCounter + 1, a, false, 0⟩),
                       idCounter := s.idCounter + 1 } (.installBp a)) := by
  unfold DebuggedProcess.setBreakpoint
  rw [if_neg (by simp [h]), if_neg (by simp [hsf]), hslot]

theorem setBreakpoint_sw_ok {env : Env} {s : DbpState} {tid a : Nat}
    (h : ((hwFindIdx s.hw a 0).isSome || (alookup s.sw a).isSome) = false)
    (hsf : env.setFail a = false)
    (hslot : (if env.hwSupported then freeSlot s.hw 0 else none) = none) :
    DebuggedProcess.setBreakpoint env s tid a =
      (.ok ⟨s.idCounter + 1, a, false, s.mem a⟩,
       addLog { writeMem s a trapByte with
                  sw := (a, ⟨s.idCounter + 1, a, false, s.mem a⟩) :: s.sw,
                  idCounter := s.idCounter + 1 } (.installBp a)) := by
  unfold DebuggedProcess.setBreakpoint
  rw [if_neg (by simp [h]), if_neg (by simp [hsf]), hslot]
  rfl

theorem guard_false_iff {s : DbpState} {a : Nat} :
    ((hwFindIdx s.hw a 0).isSome || (alookup s.sw a).isSome) = false ↔
      hwFindIdx s.hw a 0 = none ∧ alookup s.sw a = none := by
  rcases h1 : hwFindIdx s.hw a 0 with _ | p <;>
    rcases h2 : alookup s.sw a with _ | q <;> simp

/-! ### Well-formedness preservation of clear and set -/

theorem wf_clearBreakpoint (env : Env) {s : DbpState} (h : wf s) (tid a : Nat) :
    wf (DebuggedProcess.clearBreakpoint env s tid a).2 := by
  rcases hf : hwFindIdx s.hw a 0 with _ | p
  · rcases hsw : alookup s.sw a with _ | bp
    · rw [clearBreakpoint_none hf hsw]
      exact h
    · rcases hmw : env.memWriteFail a with _ | _
      · rw [clearBreakpoint_sw_ok hf hsw hmw]
        show wf (addLog { writeMem s a bp.originalData with
            sw := s.sw.filter (fun p => p.1 != a) } (.clearBp a))
        obtain ⟨hnd, hkeys, htrap⟩ := h
        refine ⟨?_, ?_, ?_⟩
        · show (hwAddrList s.hw ++ swKeys (s.sw.filter _)).Nodup
          refine List.Nodup.sublist ?_ hnd
          exact List.Sublist.append (List.Sublist.refl _)
            (List.Sublist.map _ (List.filter_sublist _))
        · intro p hp
          have hp' : p ∈ s.sw.filter (fun p => p.1 != a) := hp
          exact hkeys p (List.mem_of_mem_filter hp')
        · intro p hp
          have hp' : p ∈ s.sw.filter (fun p => p.1 != a) := hp
          have hmem := List.mem_of_mem_filter hp'
          have hne : (p.1 != a) = true := (List.mem_filter.mp hp').2
          show (writeMem s a bp.originalData).mem p.1 = trapByte
          rw [writeMem_mem, if_neg (by simpa using hne)]
          exact htrap p hmem
      · unfold DebuggedProcess.clearBreakpoint
        rw [hf, hsw]
        simp [hmw]
        exact h
  · obtain ⟨i, bp⟩ := p
    have hst : wf (addLog { s with hw := s.hw.set i none } (.clearBp a)) := by
      obtain ⟨hnd, hkeys, htrap⟩ := h
      refine ⟨?_, hkeys, htrap⟩
      show (hwAddrList (s.hw.set i none) ++ swKeys s.sw).Nodup
      refine List.Nodup.sublist ?_ hnd
      exact List.Sublist.append (hwAddrList_set_none_sublist _ _) (List.Sublist.refl _)
    rcases hcf : env.hwClearFail i with _ | _
    · rw [clearBreakpoint_hw_ok hf hcf]
      exact hst
    · rw [clearBreakpoint_hw_fail hf hcf]
      exact hst

theorem wf_setBreakpoint (env : Env) {s : DbpState} (h : wf s) (tid a : Nat) :
    wf (DebuggedProcess.setBreakpoint env s tid a).2 := by
  rcases hg : ((hwFindIdx s.hw a 0).isSome || (alookup s.sw a).isSome) with _ | _
  · obtain ⟨hhw, hsw⟩ := guard_false_iff.mp hg
    have hna : a ∉ bpAddrList s := by
      unfold bpAddrList
      rw [List.mem_append]
      rintro (h1 | h1)
      · exact (hwFindIdx_eq_none.mp hhw) h1
      · exact (alookup_eq_none.mp hsw) h1
    rcases hsf : env.setFail a with _ | _
    · rcases hslot : (if env.hwSupported then freeSlot s.hw 0 else none) with _ | i
      · rw [setBreakpoint_sw_ok hg hsf hslot]
        obtain ⟨hnd, hkeys, htrap⟩ := h
        refine ⟨?_, ?_, ?_⟩
        · show (hwAddrList s.hw ++ (a :: swKeys s.sw)).Nodup
          have hperm : (hwAddrList s.hw ++ (a :: swKeys s.sw)).Perm
              (a :: (hwAddrList s.hw ++ swKeys s.sw)) := List.perm_middle
          rw [hperm.nodup_iff, List.nodup_cons]
          exact ⟨hna, hnd⟩
        · intro p hp
          rcases List.mem_cons.mp hp with h1 | h1
          · rw [h1]
          · exact hkeys p h1
        · intro p hp
          show (writeMem s a trapByte).mem p.1 = trapByte
          rcases List.mem_cons.mp hp with h1 | h1
          · rw [h1, writeMem_mem, if_pos rfl]
          · have hne : p.1 ≠ a := by
              intro hEq
              exact hna (List.mem_append.mpr (Or.inr
                (hEq ▸ List.mem_map.mpr ⟨p, h1, rfl⟩)))
            rw [writeMem_mem, if_neg hne]
            exact htrap p h1
      · rw [setBreakpoint_hw_ok hg hsf hslot]
        obtain ⟨hnd, hkeys, htrap⟩ := h
        have hget : s.hw[i]? = some none := by
          rcases hsup : env.hwSupported with _ | _
          · rw [hsup] at hslot; simp at hslot
          · rw [hsup] at hslot
            exact freeSlot_spec hslot
        refine ⟨?_, hkeys, htrap⟩
        show (hwAddrList (s.hw.set i (some _)) ++ swKeys s.sw).Nodup
        have hperm := @hwAddrList_set_some_perm s.hw i
          (⟨s.idCounter + 1, a, false, 0⟩ : BreakPoint) hget
        rw [(hperm.append_right (swKeys s.sw)).nodup_iff]
        show (a :: hwAddrList s.hw ++ swKeys s.sw).Nodup
        rw [List.cons_append, List.nodup_cons]
        exact ⟨hna, hnd⟩
    · rw [setBreakpoint_oserr hg hsf]
      exact h
  · rw [setBreakpoint_exists hg]
    exact h

theorem wf_Clear (env : Env) {s : DbpState} (h : wf s) (a : Nat) :
    wf (DebuggedProcess.Clear env s a).2 :=
  wf_clearBreakpoint env h s.currentTid a

theorem wf_Break (env : Env) {s : DbpState} (h : wf s) (a : Nat) :
    wf (DebuggedProcess.Break env s a).2 :=
  wf_setBreakpoint env h s.currentTid a

/-! ### Well-formedness preservation of the composite operations -/

theorem wf_SetPC (env : Env) {s : DbpState} (h : wf s) (tid a : Nat) :
    wf (ThreadContext.SetPC env s tid a).2 := by
  unfold ThreadContext.SetPC
  split
  · exact h
  · split
    · exact h
    · exact wf_of_eq h (by simp) (by simp) (by simp)

theorem wf_singleStep (env : Env) {s : DbpState} (h : wf s) (tid : Nat) :
    wf (ThreadContext.singleStep env s tid).2 := by
  unfold ThreadContext.singleStep
  split
  · exact h
  · exact wf_of_eq h (by simp) (by simp) (by simp)

theorem wf_resume (env : Env) {s : DbpState} (h : wf s) (tid : Nat) :
    wf (ThreadContext.resume env s tid).2 := by
  unfold ThreadContext.resume
  split
  · exact h
  · exact wf_of_eq h (by simp) (by simp) (by simp)

theorem wf_Halt (env : Env) {s : DbpState} (h : wf s) :
    wf (DebuggedProcess.Halt env s).2 := by
  unfold DebuggedProcess.Halt
  split
  · exact wf_of_eq h (by simp) (by simp) (by simp)
  · exact wf_of_eq h (by simp) (by simp) (by simp)

theorem handleBreakpointOnThread_fields {env : Env} {s s' : DbpState} {tid : Nat}
    (h : DebuggedProcess.handleBreakpointOnThread env s tid = .ok s') :
    s'.hw = s.hw ∧ s'.sw = s.sw ∧ s'.mem = s.mem ∧ s'.threads = s.threads ∧
      s'.log = s.log ∧ s'.currentTid = s.currentTid := by
  unfold DebuggedProcess.handleBreakpointOnThread at h
  split at h
  · cases h
  · split at h
    · cases h
    · split at h
      · cases h
        exact ⟨rfl, rfl, rfl, rfl, rfl, rfl⟩
      · split at h
        · cases h
          exact ⟨rfl, rfl, rfl, rfl, rfl, rfl⟩
        · cases h
          exact ⟨rfl, rfl, rfl, rfl, rfl, rfl⟩

theorem trapWait_fields {env : Env} {s s' : DbpState} {tid iter : Nat}
    (h : trapWait env s iter = .ok (tid, s')) :
    s'.hw = s.hw ∧ s'.sw = s.sw ∧ s'.mem = s.mem ∧ s'.threads = s.threads ∧
      s'.log = s.log ∧ s'.currentTid = s.currentTid := by
  unfold trapWait at h
  split at h
  · cases h
  · split at h
    · cases h
    · next heq =>
      cases h
      exact handleBreakpointOnThread_fields heq

theorem wf_Step (env : Env) {s : DbpState} (h : wf s) (tid : Nat) :
    wf (ThreadContext.Step env s tid).2 := by
  unfold ThreadContext.Step
  split
  · exact h
  · split
    · next pc hpc bp hbp =>
      split
      · next e s1 heq =>
        have h1 := wf_clearBreakpoint env h s.currentTid bp.addr
        rw [heq] at h1
        exact h1
      · next u s1 heq =>
        have h1 := wf_clearBreakpoint env h s.currentTid bp.addr
        rw [heq] at h1
        split
        · next e2 s2 heq2 =>
          have h2 := wf_SetPC env h1 tid bp.addr
          rw [heq2] at h2
          exact h2
        · next u2 s2 heq2 =>
          have h2 := wf_SetPC env h1 tid bp.addr
          rw [heq2] at h2
          split
          next r3 s3 heq3 =>
          have h3 := wf_singleStep env h2 tid
          rw [heq3] at h3
          split
          · next e4 s4 heq4 =>
            have h4 := wf_setBreakpoint env h3 s.currentTid bp.addr
            rw [heq4] at h4
            exact h4
          · next nbp s4 heq4 =>
            have h4 := wf_setBreakpoint env h3 s.currentTid bp.addr
            rw [heq4] at h4
            exact wf_setTempAt h4 nbp.addr bp.temp
    · split
      · next e1 s1 heq1 =>
        have h1 := wf_singleStep env h tid
        rw [heq1] at h1
        exact h1
      · next u1 s1 heq1 =>
        have h1 := wf_singleStep env h tid
        rw [heq1] at h1
        exact h1

theorem wf_Continue (env : Env) {s : DbpState} (h : wf s) (tid : Nat) :
    wf (ThreadContext.Continue env s tid).2 := by
  unfold ThreadContext.Continue
  split
  · exact h
  · split
    · split
      · next e1 s1 heq1 =>
        have h1 := wf_Step env h tid
        rw [heq1] at h1
        exact h1
      · next u1 s1 heq1 =>
        have h1 := wf_Step env h tid
        rw [heq1] at h1
        exact wf_resume env h1 tid
    · exact wf_resume env h tid

theorem wf_installPCs (env : Env) (tid curpc : Nat) (fde : FDE) :
    ∀ (pcs : List Nat) {s : DbpState}, wf s →
      wf (installPCs env tid curpc fde s pcs).2 := by
  intro pcs
  induction pcs with
  | nil => intro s h; exact h
  | cons pc rest ih =>
    intro s h
    rw [installPCs]
    split
    · exact ih h
    · split
      · exact h
      · next pc2 hch =>
        have h1 := wf_Break env h pc2
        rcases hb : DebuggedProcess.Break env s pc2 with ⟨r1, s1⟩
        rw [hb] at h1
        rcases r1 with e | bp
        · rcases e with _ | a | _ | _ | _ | _ | _ | _ | _ | _ | _
          all_goals first
            | exact ih h1
            | exact h1
        · exact ih (wf_setTempAt h1 bp.addr true)

theorem wf_installLines (env : Env) (tid curpc : Nat) (fde : FDE) (file : String) :
    ∀ (lines : List Nat) {s : DbpState}, wf s →
      wf (installLines env tid curpc fde file s lines).2 := by
  intro lines
  induction lines with
  | nil => intro s h; exact h
  | cons l rest ih =>
    intro s h
    rw [installLines]
    have h1 := wf_installPCs env tid curpc fde (env.allPCsForFileLine file l) h
    rcases hi : installPCs env tid curpc fde s (env.allPCsForFileLine file l) with ⟨r1, s1⟩
    rw [hi] at h1
    rcases r1 with e1 | u1
    · exact h1
    · exact ih h1

theorem wf_threadNextInner (env : Env) {s : DbpState} (h : wf s)
    (tid curpc : Nat) (fde : FDE) (file : String) (line : Nat) :
    wf (ThreadContext.next env s tid curpc fde file line).2 := by
  unfold ThreadContext.next
  split
  · exact h
  · next lines hl =>
    split
    · repeat' split
      all_goals exact h
    · exact wf_installLines env tid curpc fde file lines h

theorem wf_ThreadNext (env : Env) {s : DbpState} (h : wf s) (tid : Nat) :
    wf (ThreadContext.Next env s tid).2 := by
  unfold ThreadContext.Next
  split
  · exact h
  · next pc0 hpc =>
    split
    · exact h
    · next fde hf =>
      split
      · next e1 s1 heq1 =>
        have h1 : wf s1 := by
          by_cases hgo : strExt (env.pcToLine (correctedPC s pc0)).1 = ".go"
          · rw [if_pos hgo] at heq1
            have := wf_threadNextInner env h tid (correctedPC s pc0) fde
              (env.pcToLine (correctedPC s pc0)).1
              (env.pcToLine (correctedPC s pc0)).2.1
            rw [heq1] at this
            exact this
          · rw [if_neg hgo] at heq1
            cases heq1
        exact h1
      · next u1 s1 heq1 =>
        have h1 : wf s1 := by
          by_cases hgo : strExt (env.pcToLine (correctedPC s pc0)).1 = ".go"
          · rw [if_pos hgo] at heq1
            have := wf_threadNextInner env h tid (correctedPC s pc0) fde
              (env.pcToLine (correctedPC s pc0)).1
              (env.pcToLine (correctedPC s pc0)).2.1
            rw [heq1] at this
            exact this
          · rw [if_neg hgo] at heq1
            cases heq1
            exact h
        exact wf_Continue env h1 tid

theorem wf_clearbpReset (env : Env) {s : DbpState} (h : wf s) (tid : Nat)
    (bp : BreakPoint) : wf (clearbpReset env s tid bp).2 := by
  unfold clearbpReset
  have h1 := wf_Clear env h bp.addr
  rcases hc : DebuggedProcess.Clear env s bp.addr with ⟨r1, s1⟩
  rw [hc] at h1
  rcases r1 with e1 | bp1
  · exact h1
  · exact wf_SetPC env h1 tid bp.addr

theorem wf_clearTempBreakpoint (env : Env) {s : DbpState} (h : wf s) (tid pc : Nat) :
    wf (ThreadContext.clearTempBreakpoint env s tid pc).2 := by
  unfold ThreadContext.clearTempBreakpoint
  split
  · next bp hbp => exact wf_clearbpReset env h tid bp
  · split
    · next bp hbp =>
      split
      · exact wf_clearbpReset env h tid bp
      · exact h
    · exact h

theorem wf_clearTempHW (env : Env) :
    ∀ (l : List (Option BreakPoint)) {s : DbpState}, wf s →
      wf (clearTempHW env s l).2 := by
  intro l
  induction l with
  | nil => intro s h; exact h
  | cons ob rest ih =>
    intro s h
    cases ob with
    | none => exact ih h
    | some bp =>
      rw [clearTempHW]
      split
      · have h1 := wf_Clear env h bp.addr
        rcases hc : DebuggedProcess.Clear env s bp.addr with ⟨r1, s1⟩
        rw [hc] at h1
        rcases r1 with e1 | u1
        · exact h1
        · exact ih h1
      · exact ih h

theorem wf_clearTempSW (env : Env) :
    ∀ (l : List (Nat × BreakPoint)) {s : DbpState}, wf s →
      wf (clearTempSW env s l).2 := by
  intro l
  induction l with
  | nil => intro s h; exact h
  | cons p rest ih =>
    intro s h
    obtain ⟨a, bp⟩ := p
    rw [clearTempSW]
    split
    · have h1 := wf_Clear env h bp.addr
      rcases hc : DebuggedProcess.Clear env s bp.addr with ⟨r1, s1⟩
      rw [hc] at h1
      rcases r1 with e1 | u1
      · exact h1
      · exact ih h1
    · exact ih h

theorem wf_clearTempBreakpoints (env : Env) {s : DbpState} (h : wf s) :
    wf (DebuggedProcess.clearTempBreakpoints env s).2 := by
  unfold DebuggedProcess.clearTempBreakpoints
  have h1 := wf_clearTempHW env s.hw h
  rcases hc : clearTempHW env s s.hw with ⟨r1, s1⟩
  rw [hc] at h1
  rcases r1 with e1 | u1
  · exact h1
  · exact wf_clearTempSW env s1.sw h1

theorem wf_nextThreadLoop (env : Env) :
    ∀ (ths : List (Nat × ThreadRegs)) {s : DbpState}, wf s →
      wf (nextThreadLoop env s ths).2 := by
  intro ths
  induction ths with
  | nil => intro s h; exact h
  | cons p rest ih =>
    intro s h
    obtain ⟨tid, r⟩ := p
    rw [nextThreadLoop]
    split
    · have h0 : wf (addLog s (.contIssued tid)) :=
        wf_of_eq h (by simp) (by simp) (by simp)
      have h1 := wf_Continue env h0 tid
      rcases hc : ThreadContext.Continue env (addLog s (.contIssued tid)) tid
        with ⟨r1, s1⟩
      rw [hc] at h1
      rcases r1 with e1 | u1
      · exact h1
      · exact ih h1
    · have h0 : wf (addLog s (.nextIssued tid)) :=
        wf_of_eq h (by simp) (by simp) (by simp)
      have h1 := wf_ThreadNext env h0 tid
      rcases hn : ThreadContext.Next env (addLog s (.nextIssued tid)) tid
        with ⟨r1, s1⟩
      rw [hn] at h1
      rcases r1 with e1 | u1
      · exact h1
      · exact ih h1

theorem wf_trapLoop (env : Env) (curgId : Nat) :
    ∀ (fuel iter : Nat) {s : DbpState}, wf s →
      wf (trapLoop env curgId fuel iter s).2 := by
  intro fuel
  induction fuel with
  | zero => intro iter s h; exact h
  | succ n ih =>
    intro iter s h
    rw [trapLoop]
    split
    · exact h
    · next tid s1 ht =>
      have h1 : wf s1 := by
        obtain ⟨f1, f2, f3, _, _, _⟩ := trapWait_fields ht
        exact wf_of_eq h f1 f2 f3
      have h2 : wf (match s1.currentBp with
          | some cbp => ThreadContext.clearTempBreakpoint env s1 tid cbp.addr
          | none => ((.ok () : Except Err Unit), s1)).2 := by
        rcases s1.currentBp with _ | cbp
        · exact h1
        · exact wf_clearTempBreakpoint env h1 tid cbp.addr
      split
      · next e s2 heq =>
        rw [heq] at h2
        exact h2
      · next u s2 heq =>
        rw [heq] at h2
        split
        · exact h2
        · next tg hg =>
          split
          · split
            · exact h2
            · exact wf_of_eq h2 (by simp) (by simp) (by simp)
          · exact ih (iter + 1) h2

theorem wf_nextCore (env : Env) (fuel : Nat) {s : DbpState} (h : wf s)
    (curgId : Nat) : wf (DebuggedProcess.nextCore env fuel s curgId).2 := by
  unfold DebuggedProcess.nextCore
  split
  · exact h
  · split
    · exact h
    · split
      · next e1 s1 hl =>
        have h1 := wf_nextThreadLoop env s.threads h
        rw [hl] at h1
        exact h1
      · next u1 s1 hl =>
        have h1 := wf_nextThreadLoop env s.threads h
        rw [hl] at h1
        split
        · next s2 htl =>
          have h2 := wf_trapLoop env curgId fuel 0 h1
          rw [htl] at h2
          exact h2
        · next e2 s2 htl =>
          have h2 := wf_trapLoop env curgId fuel 0 h1
          rw [htl] at h2
          exact h2
        · next s2 htl =>
          have h2 := wf_trapLoop env curgId fuel 0 h1
          rw [htl] at h2
          split
          · next e3 s3 hh =>
            have h3 := wf_Halt env h2
            rw [hh] at h3
            exact h3
          · next u3 s3 hh =>
            have h3 := wf_Halt env h2
            rw [hh] at h3
            exact h3

/-! ### Uniqueness consequences of well-formedness -/

theorem mem_hwAddrList {l : List (Option BreakPoint)} {bp : BreakPoint}
    (h : some bp ∈ l) : bp.addr ∈ hwAddrList l := by
  induction l with
  | nil => simp at h
  | cons ob r ih =>
    rcases List.mem_cons.mp h with h1 | h1
    · rw [← h1, hwAddrList_cons_some]
      exact List.mem_cons_self _ _
    · cases ob with
      | none =>
        rw [hwAddrList_cons_none]
        exact ih h1
      | some bp0 =>
        rw [hwAddrList_cons_some]
        exact List.mem_cons_of_mem _ (ih h1)

theorem getElem_unique_addr :
    ∀ {l : List (Option BreakPoint)} {i j : Nat} {b1 b2 : BreakPoint},
      (hwAddrList l).Nodup → l[i]? = some (some b1) → l[j]? = some (some b2) →
      b1.addr = b2.addr → i = j := by
  intro l
  induction l with
  | nil => intro i j b1 b2 _ h1 _ _; simp at h1
  | cons ob r ih =>
    intro i j b1 b2 hnd h1 h2 hab
    cases i with
    | zero =>
      cases j with
      | zero => rfl
      | succ j' =>
        simp at h1 h2
        subst h1
        rw [hwAddrList_cons_some] at hnd
        have hm : b2.addr ∈ hwAddrList r :=
          mem_hwAddrList (List.mem_iff_getElem?.mpr ⟨j', h2⟩)
        rw [hab] at hnd
        exact absurd hm (List.nodup_cons.mp hnd).1
    | succ i' =>
      cases j with
      | zero =>
        simp at h1 h2
        subst h2
        rw [hwAddrList_cons_some] at hnd
        have hm : b1.addr ∈ hwAddrList r :=
          mem_hwAddrList (List.mem_iff_getElem?.mpr ⟨i', h1⟩)
        rw [← hab] at hnd
        exact absurd hm (List.nodup_cons.mp hnd).1
      | succ j' =>
        simp at h1 h2
        have hnd' : (hwAddrList r).Nodup := by
          cases ob with
          | none => rwa [hwAddrList_cons_none] at hnd
          | some bp0 =>
            rw [hwAddrList_cons_some] at hnd
            exact (List.nodup_cons.mp hnd).2
        rw [ih hnd' h1 h2 hab]

theorem mem_unique_addr {l : List (Option BreakPoint)} {b1 b2 : BreakPoint}
    (hnd : (hwAddrList l).Nodup) (h1 : some b1 ∈ l) (h2 : some b2 ∈ l)
    (hab : b1.addr = b2.addr) : b1 = b2 := by
  obtain ⟨i, hi⟩ := List.mem_iff_getElem?.mp h1
  obtain ⟨j, hj⟩ := List.mem_iff_getElem?.mp h2
  have hij := getElem_unique_addr hnd hi hj hab
  rw [hij, hj] at hi
  injection hi with h3
  injection h3 with h4
  exact h4.symm

theorem hwFindIdx_of_mem {l : List (Option BreakPoint)} {bp : BreakPoint}
    (hnd : (hwAddrList l).Nodup) (h : some bp ∈ l) :
    ∃ i, hwFindIdx l bp.addr 0 = some (i, bp) ∧ l[i]? = some (some bp) := by
  rcases hf : hwFindIdx l bp.addr 0 with _ | p
  · exact absurd (mem_hwAddrList h) (hwFindIdx_eq_none.mp hf)
  · obtain ⟨i, bpF⟩ := p
    obtain ⟨hg, ha⟩ := hwFindIdx_zero_some hf
    have hbb : bpF = bp :=
      mem_unique_addr hnd (List.mem_iff_getElem?.mpr ⟨i, hg⟩) h ha
    subst hbb
    exact ⟨i, rfl, hg⟩

theorem mem_set_none_of_ne {l : List (Option BreakPoint)} {i : Nat}
    {bp2 : BreakPoint} (h : some bp2 ∈ l) {a : Nat} (hne : bp2.addr ≠ a)
    {bp : BreakPoint} (hi : l[i]? = some (some bp)) (hba : bp.addr = a) :
    some bp2 ∈ l.set i none := by
  obtain ⟨j, hj⟩ := List.mem_iff_getElem?.mp h
  have hji : j ≠ i := by
    intro hEq
    rw [hEq, hi] at hj
    injection hj with h3
    injection h3 with h4
    exact hne (by rw [← h4]; exact hba)
  refine List.mem_iff_getElem?.mpr ⟨j, ?_⟩
  rw [List.getElem?_set_ne (Ne.symm hji)]
  exact hj

theorem not_mem_set_none {l : List (Option BreakPoint)} {i : Nat}
    {bp : BreakPoint} (hnd : (hwAddrList l).Nodup)
    (hi : l[i]? = some (some bp)) : some bp ∉ l.set i none := by
  intro hmem
  obtain ⟨i0, hf, hg⟩ :=
    hwFindIdx_of_mem hnd (List.mem_iff_getElem?.mpr ⟨i, hi⟩)
  have hii : i0 = i := getElem_unique_addr hnd hg hi rfl
  subst hii
  exact notMem_hwAddrList_set_none hnd hf (mem_hwAddrList hmem)

theorem mem_swKeys {l : List (Nat × BreakPoint)} {p : Nat × BreakPoint}
    (h : p ∈ l) : p.1 ∈ swKeys l := List.mem_map.mpr ⟨p, h, rfl⟩

theorem sw_entry_unique {l : List (Nat × BreakPoint)}
    (hnd : (swKeys l).Nodup) {a : Nat} {b1 b2 : BreakPoint}
    (h1 : (a, b1) ∈ l) (h2 : (a, b2) ∈ l) : b1 = b2 := by
  have e1 := alookup_of_mem h1 hnd
  have e2 := alookup_of_mem h2 hnd
  rw [e1] at e2
  exact Option.some.inj e2

theorem Clear_eq (env : Env) (s : DbpState) (a : Nat) :
    DebuggedProcess.Clear env s a =
      DebuggedProcess.clearBreakpoint env s s.currentTid a := rfl

/-! ### Postcondition of clearTempBreakpoints -/

theorem clearTempHW_spec (env : Env) (hcf : ∀ i, env.hwClearFail i = false) :
    ∀ (l : List (Option BreakPoint)) {s : DbpState}, wf s →
      (hwAddrList l).Nodup →
      (∀ bp : BreakPoint, some bp ∈ l → bp.temp = true → some bp ∈ s.hw) →
      ∃ s', clearTempHW env s l = (.ok (), s') ∧ wf s' ∧
        s'.sw = s.sw ∧ s'.mem = s.mem ∧ s'.currentTid = s.currentTid ∧
        (∀ bp : BreakPoint, some bp ∈ s'.hw → some bp ∈ s.hw) ∧
        (∀ bp : BreakPoint, some bp ∈ s.hw → bp.temp = false → some bp ∈ s'.hw) ∧
        (∀ bp : BreakPoint, some bp ∈ l → bp.temp = true → some bp ∉ s'.hw) := by
  intro l
  induction l with
  | nil =>
    intro s h _ _
    exact ⟨s, rfl, h, rfl, rfl, rfl, fun _ hm => hm, fun _ hm _ => hm, by simp⟩
  | cons ob rest ih =>
    intro s h hnd hmem
    cases ob with
    | none =>
      have hnd' : (hwAddrList rest).Nodup := by
        rwa [hwAddrList_cons_none] at hnd
      have hmem' : ∀ bp : BreakPoint, some bp ∈ rest → bp.temp = true →
          some bp ∈ s.hw :=
        fun bp hm ht => hmem bp (List.mem_cons_of_mem _ hm) ht
      obtain ⟨s', e1, e2, e3, e4, e5, e6, e7, e8⟩ := ih h hnd' hmem'
      refine ⟨s', e1, e2, e3, e4, e5, e6, e7, ?_⟩
      intro bp hm ht
      rcases List.mem_cons.mp hm with h1 | h1
      · cases h1
      · exact e8 bp h1 ht
    | some bp0 =>
      rw [hwAddrList_cons_some] at hnd
      have hnd' := (List.nodup_cons.mp hnd).2
      have hna := (List.nodup_cons.mp hnd).1
      rw [clearTempHW]
      by_cases ht0 : bp0.temp = true
      · rw [if_pos ht0]
        have hndS : (hwAddrList s.hw).Nodup := h.1.of_append_left
        have hm0 : some bp0 ∈ s.hw := hmem bp0 (List.mem_cons_self _ _) ht0
        obtain ⟨i, hf, hg⟩ := hwFindIdx_of_mem hndS hm0
        have hstep : DebuggedProcess.Clear env s bp0.addr =
            (.ok bp0, addLog { s with hw := s.hw.set i none } (.clearBp bp0.addr)) := by
          rw [Clear_eq]
          exact clearBreakpoint_hw_ok hf (hcf i)
        rw [hstep]
        have h1 : wf (addLog { s with hw := s.hw.set i none } (.clearBp bp0.addr)) := by
          have hh := wf_Clear env h bp0.addr
          rw [hstep] at hh
          exact hh
        have hmem1 : ∀ bp : BreakPoint, some bp ∈ rest → bp.temp = true →
            some bp ∈ (addLog { s with hw := s.hw.set i none }
              (.clearBp bp0.addr)).hw := by
          intro bp hm ht
          have hms : some bp ∈ s.hw := hmem bp (List.mem_cons_of_mem _ hm) ht
          have hne : bp.addr ≠ bp0.addr := by
            intro hEq
            apply hna
            rw [← hEq]
            have : bp.addr ∈ hwAddrList rest := by
              apply mem_hwAddrList hm
            exact this
          show some bp ∈ s.hw.set i none
          exact mem_set_none_of_ne hms hne hg rfl
        obtain ⟨s', e1, e2, e3, e4, e5, e6, e7, e8⟩ := ih h1 hnd' hmem1
        refine ⟨s', e1, e2, by simpa using e3, by simpa using e4,
          by simpa using e5, ?_, ?_, ?_⟩
        · intro bp hm
          have hm1 := e6 bp hm
          simp only [addLog_hw] at hm1
          have hm2 : some bp ∈ s.hw.set i none := hm1
          rcases List.mem_or_eq_of_mem_set hm2 with h2 | h2
          · exact h2
          · cases h2
        · intro bp hm htf
          apply e7
          · have hne : bp.addr ≠ bp0.addr := by
              intro hEq
              have heqb : bp = bp0 := mem_unique_addr hndS hm hm0 hEq
              rw [heqb] at htf
              rw [htf] at ht0
              cases ht0
            show some bp ∈ s.hw.set i none
            exact mem_set_none_of_ne hm hne hg rfl
          · exact htf
        · intro bp hm ht
          rcases List.mem_cons.mp hm with h2 | h2
          · injection h2 with h3
            subst h3
            intro hmem'
            have hm1 := e6 bp hmem'
            have hm2 : some bp ∈ s.hw.set i none := hm1
            exact not_mem_set_none hndS hg hm2
          · exact e8 bp h2 ht
      · rw [if_neg ht0]
        have hmem' : ∀ bp : BreakPoint, some bp ∈ rest → bp.temp = true →
            some bp ∈ s.hw :=
          fun bp hm ht => hmem bp (List.mem_cons_of_mem _ hm) ht
        obtain ⟨s', e1, e2, e3, e4, e5, e6, e7, e8⟩ := ih h hnd' hmem'
        refine ⟨s', e1, e2, e3, e4, e5, e6, e7, ?_⟩
        intro bp hm ht
        rcases List.mem_cons.mp hm with h1 | h1
        · injection h1 with h3
          subst h3
          exact absurd ht ht0
        · exact e8 bp h1 ht

theorem clearTempSW_spec (env : Env) (hmw : ∀ a, env.memWriteFail a = false) :
    ∀ (l : List (Nat × BreakPoint)) {s : DbpState}, wf s →
      (swKeys l).Nodup →
      (∀ p : Nat × BreakPoint, p ∈ l → p.2.temp = true → p ∈ s.sw) →
      ∃ s', clearTempSW env s l = (.ok (), s') ∧ wf s' ∧
        s'.hw = s.hw ∧ s'.currentTid = s.currentTid ∧
        (∀ p : Nat × BreakPoint, p ∈ s'.sw → p ∈ s.sw) ∧
        (∀ p : Nat × BreakPoint, p ∈ s.sw → p.2.temp = false →
          p ∈ s'.sw ∧ s'.mem p.1 = s.mem p.1) ∧
        (∀ p : Nat × BreakPoint, p ∈ l → p.2.temp = true →
          ∀ q : Nat × BreakPoint, q ∈ s'.sw → q.1 ≠ p.1) := by
  intro l
  induction l with
  | nil =>
    intro s h _ _
    exact ⟨s, rfl, h, rfl, rfl, fun _ hm => hm, fun _ hm _ => ⟨hm, rfl⟩, by simp⟩
  | cons hd rest ih =>
    intro s h hknd hmem
    obtain ⟨a, bp⟩ := hd
    have hknd' : (swKeys rest).Nodup := by
      simp only [swKeys, List.map_cons, List.nodup_cons] at hknd
      exact hknd.2
    have hka : a ∉ swKeys rest := by
      simp only [swKeys, List.map_cons, List.nodup_cons] at hknd
      exact hknd.1
    rw [clearTempSW]
    by_cases ht0 : bp.temp = true
    · rw [if_pos ht0]
      have hmS : (a, bp) ∈ s.sw := hmem (a, bp) (List.mem_cons_self _ _) ht0
      have hba : bp.addr = a := h.2.1 (a, bp) hmS
      have hkndS : (swKeys s.sw).Nodup := h.1.of_append_right
      have hhw : hwFindIdx s.hw a 0 = none := by
        rw [hwFindIdx_eq_none]
        intro hmA
        exact (List.disjoint_of_nodup_append h.1) hmA (mem_swKeys hmS)
      have hsw : alookup s.sw a = some bp := alookup_of_mem hmS hkndS
      have hstep : DebuggedProcess.Clear env s bp.addr =
          (.ok bp,
           addLog { writeMem s a bp.originalData with
                      sw := s.sw.filter (fun p => p.1 != a) } (.clearBp a)) := by
        rw [Clear_eq, hba]
        exact clearBreakpoint_sw_ok hhw hsw (hmw a)
      rw [hstep]
      have h1 : wf (addLog { writeMem s a bp.originalData with
          sw := s.sw.filter (fun p => p.1 != a) } (.clearBp a)) := by
        have hh := wf_Clear env h bp.addr
        rw [hstep] at hh
        exact hh
      have hmem1 : ∀ p : Nat × BreakPoint, p ∈ rest → p.2.temp = true →
          p ∈ (addLog { writeMem s a bp.originalData with
            sw := s.sw.filter (fun p => p.1 != a) } (.clearBp a)).sw := by
        intro p hm ht
        have hps : p ∈ s.sw := hmem p (List.mem_cons_of_mem _ hm) ht
        have hne : p.1 ≠ a := by
          intro hEq
          exact hka (hEq ▸ mem_swKeys hm)
        show p ∈ s.sw.filter (fun p => p.1 != a)
        rw [List.mem_filter]
        exact ⟨hps, by simpa using hne⟩
      obtain ⟨s', e1, e2, e3, e4, e5, e6, e7⟩ := ih h1 hknd' hmem1
      refine ⟨s', e1, e2, by simpa using e3, by simpa using e4, ?_, ?_, ?_⟩
      · intro p hm
        have hm1 := e5 p hm
        have hm2 : p ∈ s.sw.filter (fun p => p.1 != a) := hm1
        exact List.mem_of_mem_filter hm2
      · intro p hm htf
        have hne : p.1 ≠ a := by
          intro hEq
          have hpb : p.2 = bp := by
            have : (a, p.2) ∈ s.sw := by
              rw [← hEq]
              exact hm
            exact sw_entry_unique hkndS this hmS
          rw [hpb] at htf
          rw [htf] at ht0
          cases ht0
        have hp1 : p ∈ (addLog { writeMem s a bp.originalData with
            sw := s.sw.filter (fun p => p.1 != a) } (.clearBp a)).sw := by
          show p ∈ s.sw.filter (fun p => p.1 != a)
          rw [List.mem_filter]
          exact ⟨hm, by simpa using hne⟩
        obtain ⟨hp2, hp3⟩ := e6 p hp1 htf
        refine ⟨hp2, ?_⟩
        rw [hp3]
        show (writeMem s a bp.originalData).mem p.1 = s.mem p.1
        rw [writeMem_mem, if_neg hne]
      · intro p hm ht q hq
        rcases List.mem_cons.mp hm with h1 | h1
        · have hq1 := e5 q hq
          have hq2 : q ∈ s.sw.filter (fun p => p.1 != a) := hq1
          have hqa : (q.1 != a) = true := (List.mem_filter.mp hq2).2
          rw [h1]
          simpa using hqa
        · exact e7 p h1 ht q hq
    · rw [if_neg ht0]
      have hmem' : ∀ p : Nat × BreakPoint, p ∈ rest → p.2.temp = true → p ∈ s.sw :=
        fun p hm ht => hmem p (List.mem_cons_of_mem _ hm) ht
      obtain ⟨s', e1, e2, e3, e4, e5, e6, e7⟩ := ih h hknd' hmem'
      refine ⟨s', e1, e2, e3, e4, e5, e6, ?_⟩
      intro p hm ht q hq
      rcases List.mem_cons.mp hm with h1 | h1
      · rw [h1] at ht
        exact absurd ht ht0
      · exact e7 p h1 ht q hq

theorem noTempB_iff {s : DbpState} :
    noTempB s = true ↔
      (∀ bp : BreakPoint, some bp ∈ s.hw → bp.temp = false) ∧
        (∀ p : Nat × BreakPoint, p ∈ s.sw → p.2.temp = false) := by
  unfold noTempB
  rw [Bool.and_eq_true, List.all_eq_true, List.all_eq_true]
  constructor
  · rintro ⟨h1, h2⟩
    refine ⟨?_, ?_⟩
    · intro bp hm
      have := h1 _ hm
      simpa using this
    · intro p hm
      have := h2 _ hm
      simpa using this
  · rintro ⟨h1, h2⟩
    refine ⟨?_, ?_⟩
    · intro ob hm
      cases ob with
      | none => rfl
      | some bp => simpa using h1 bp hm
    · intro p hm
      simpa using h2 p hm

theorem clearTempBreakpoints_spec {env : Env} {s : DbpState} (h : wf s)
    (hcf : ∀ i, env.hwClearFail i = false) (hmw : ∀ a, env.memWriteFail a = false) :
    ∃ s', DebuggedProcess.clearTempBreakpoints env s = (.ok (), s') ∧ wf s' ∧
      noTempB s' = true ∧
      (∀ bp : BreakPoint, some bp ∈ s.hw → bp.temp = false → some bp ∈ s'.hw) ∧
      (∀ p : Nat × BreakPoint, p ∈ s.sw → p.2.temp = false →
        p ∈ s'.sw ∧ s'.mem p.1 = s.mem p.1) := by
  obtain ⟨s1, a1, a2, a3, a4, a5, a6, a7, a8⟩ :=
    clearTempHW_spec env hcf s.hw h h.1.of_append_left (fun _ hm _ => hm)
  obtain ⟨s2, b1, b2, b3, b4, b5, b6, b7⟩ :=
    clearTempSW_spec env hmw s1.sw a2 a2.1.of_append_right (fun _ hm _ => hm)
  have hrun : DebuggedProcess.clearTempBreakpoints env s = (.ok (), s2) := by
    unfold DebuggedProcess.clearTempBreakpoints
    rw [a1]
    exact b1
  refine ⟨s2, hrun, b2, ?_, ?_, ?_⟩
  · rw [noTempB_iff]
    constructor
    · intro bp hm
      by_contra hne
      have htT : bp.temp = true := by
        cases hbt : bp.temp
        · exact absurd hbt hne
        · rfl
      have hm1 : some bp ∈ s1.hw := by
        rw [← b3]
        exact hm
      have hmS : some bp ∈ s.hw := a6 bp hm1
      exact (a8 bp hmS htT) hm1
    · intro p hm
      by_contra hne
      have htT : p.2.temp = true := by
        cases hbt : p.2.temp
        · exact absurd hbt hne
        · rfl
      have hm1 : p ∈ s1.sw := b5 p hm
      exact (b7 p hm1 htT p hm) rfl
  · intro bp hm htf
    have hm1 : some bp ∈ s1.hw := a7 bp hm htf
    rw [← b3] at hm1
    exact hm1
  · intro p hm htf
    have hm1 : p ∈ s1.sw := by
      rw [a3]
      exact hm
    obtain ⟨hp1, hp2⟩ := b6 p hm1 htf
    refine ⟨hp1, ?_⟩
    rw [hp2, a4]

theorem next_eq_of_curG_ok {env : Env} {fuel : Nat} {s : DbpState} {curg : G}
    (hcg : env.curG s.currentTid = .ok curg) :
    DebuggedProcess.next env fuel s =
      (match DebuggedProcess.nextCore env fuel s curg.id with
       | (.hung, s1) => (.hung, s1)
       | (o, s1) => (o, (DebuggedProcess.clearTempBreakpoints env s1).2)) := by
  unfold DebuggedProcess.next
  rw [hcg]

/-! ### Claim theorems -/

/-- C2: whenever the session-level `next` operation exits — with success or
with an error — no breakpoint with the `Temp` flag set remains in either the
hardware slots or the software map; moreover the deferred
`clearTempBreakpoints` preserves every non-temp breakpoint exactly: each
non-temp breakpoint of the state it is invoked on is still present in its
store afterwards, a software one with the trap byte still installed at its
address. -/
theorem next_clears_all_temp_breakpoints (env : Env) (fuel : Nat)
    (s : DbpState) (h : wf s) (hnt : noTempB s = true)
    (hcf : ∀ i, env.hwClearFail i = false)
    (hmw : ∀ a, env.memWriteFail a = false)
    (hexit : (DebuggedProcess.next env fuel s).1 ≠ .hung) :
    noTempB (DebuggedProcess.next env fuel s).2 = true ∧
      (∀ g : G, env.curG s.currentTid = .ok g →
        (∀ bp : BreakPoint,
          some bp ∈ (DebuggedProcess.nextCore env fuel s g.id).2.hw →
          bp.temp = false →
          some bp ∈ (DebuggedProcess.next env fuel s).2.hw) ∧
        (∀ p : Nat × BreakPoint,
          p ∈ (DebuggedProcess.nextCore env fuel s g.id).2.sw →
          p.2.temp = false →
          p ∈ (DebuggedProcess.next env fuel s).2.sw ∧
            (DebuggedProcess.next env fuel s).2.mem p.1 = trapByte)) := by
  rcases hcg : env.curG s.currentTid with e | curg
  · have hnx : DebuggedProcess.next env fuel s = (.err e, s) := by
      unfold DebuggedProcess.next
      rw [hcg]
    rw [hnx]
    refine ⟨hnt, ?_⟩
    intro g hg
    cases hg
  · have hnx := @next_eq_of_curG_ok env fuel s curg hcg
    rcases hnc : DebuggedProcess.nextCore env fuel s curg.id with ⟨o1, σ⟩
    rw [hnc] at hnx
    have hwσ : wf σ := by
      have hh := wf_nextCore env fuel h curg.id
      rw [hnc] at hh
      exact hh
    have hmain : o1 ≠ .hung →
        noTempB (DebuggedProcess.next env fuel s).2 = true ∧
        (∀ g : G, (Except.ok curg : Except Err G) = .ok g →
          (∀ bp : BreakPoint,
            some bp ∈ (DebuggedProcess.nextCore env fuel s g.id).2.hw →
            bp.temp = false →
            some bp ∈ (DebuggedProcess.next env fuel s).2.hw) ∧
          (∀ p : Nat × BreakPoint,
            p ∈ (DebuggedProcess.nextCore env fuel s g.id).2.sw →
            p.2.temp = false →
            p ∈ (DebuggedProcess.next env fuel s).2.sw ∧
              (DebuggedProcess.next env fuel s).2.mem p.1 = trapByte)) := by
      intro hno
      obtain ⟨s2, c1, c2, c3, c4, c5⟩ := clearTempBreakpoints_spec hwσ hcf hmw
      have hnx2 : DebuggedProcess.next env fuel s =
          (o1, (DebuggedProcess.clearTempBreakpoints env σ).2) := by
        rw [hnx]
        rcases o1 with _ | e1 | _
        · rfl
        · rfl
        · exact absurd rfl hno
      have hnx3 : DebuggedProcess.next env fuel s = (o1, s2) := by
        rw [hnx2, c1]
      rw [hnx3]
      refine ⟨c3, ?_⟩
      intro g hg
      injection hg with hgg
      subst hgg
      rw [hnc]
      refine ⟨?_, ?_⟩
      · intro bp hm htf
        exact c4 bp hm htf
      · intro p hm htf
        obtain ⟨hp1, hp2⟩ := c5 p hm htf
        refine ⟨hp1, ?_⟩
        rw [hp2]
        exact hwσ.2.2 p hm
    rcases o1 with _ | e1 | _
    · exact hmain (by intro hh; cases hh)
    · exact hmain (by intro hh; cases hh)
    · have hh : (DebuggedProcess.next env fuel s).1 = .hung := by
        rw [hnx]
      exact absurd hh hexit

/-- C3: with an empty candidate-line set, the per-thread next reads the
return address via the frame descriptor's return-address rule; if the
function containing it is `runtime.goexit`, it returns the GoroutineExiting
signal carrying the goroutine's id, and otherwise it returns success with
the state unchanged — no breakpoint installed. -/
theorem thread_next_empty_lines (env : Env) (s : DbpState) (tid curpc : Nat)
    (fde : FDE) (file : String) (line : Nat) (ret : Nat)
    (hnl : env.nextLines file line = .ok [])
    (hra : ThreadContext.ReturnAddressFromOffset env s tid
      (fde.returnAddressOffset curpc) = .ok ret) :
    (∀ fn : Func, (env.pcToLine ret).2.2 = some fn →
      fn.name = "runtime.goexit" →
      ∀ g : G, env.curG tid = .ok g →
        ThreadContext.next env s tid curpc fde file line =
          (.error (.goroutineExiting g.id), s)) ∧
    (∀ fn : Func, (env.pcToLine ret).2.2 = some fn →
      ¬fn.name = "runtime.goexit" →
      ThreadContext.next env s tid curpc fde file line = (.ok (), s)) ∧
    ((env.pcToLine ret).2.2 = none →
      ThreadContext.next env s tid curpc fde file line = (.ok (), s)) := by
  refine ⟨?_, ?_, ?_⟩
  · intro fn hfn hname g hg
    simp [ThreadContext.next, hnl, hra, hfn, hname, hg]
  · intro fn hfn hname
    simp [ThreadContext.next, hnl, hra, hfn, hname]
  · intro hfn
    simp [ThreadContext.next, hnl, hra, hfn]

/-- C9: the hardware path of clearBreakpoint is not atomic: the matching
slot is nulled before the debug-register disarm, so a failing disarm
returns an error although the record is already gone — the slot array holds
`none` and a subsequent FindBreakpoint misses the address. -/
theorem clear_hw_breakpoint_not_atomic (env : Env) (s : DbpState)
    (tid a i : Nat) (bp : BreakPoint)
    (hfind : hwFindIdx s.hw a 0 = some (i, bp))
    (hfail : env.hwClearFail i = true)
    (hnd : (hwAddrList s.hw).Nodup)
    (hsw : alookup s.sw a = none) :
    (DebuggedProcess.clearBreakpoint env s tid a).1 = .error (.external 3) ∧
      (DebuggedProcess.clearBreakpoint env s tid a).2.hw = s.hw.set i none ∧
      DebuggedProcess.FindBreakpoint
        (DebuggedProcess.clearBreakpoint env s tid a).2 a = none := by
  rw [clearBreakpoint_hw_fail hfind hfail]
  refine ⟨rfl, rfl, ?_⟩
  unfold DebuggedProcess.FindBreakpoint
  have h1 : hwFindIdx
      (addLog { s with hw := s.hw.set i none } (.clearBp a)).hw a 0 = none := by
    simp only [addLog_hw]
    rw [hwFindIdx_eq_none]
    exact notMem_hwAddrList_set_none hnd hfind
  rw [h1]
  exact hsw

/-- C10: clear_temp_breakpoint(pc) is a successful no-op when no breakpoint
at pc exists in either store, or when the breakpoint there is non-temp: it
returns success and the state — breakpoint table, target memory, thread
registers — is unchanged. -/
theorem clear_temp_breakpoint_noop (env : Env) (s : DbpState) (tid pc : Nat) :
    (hwTempAt s.hw pc = none → alookup s.sw pc = none →
      ThreadContext.clearTempBreakpoint env s tid pc = (.ok (), s)) ∧
    (∀ bp : BreakPoint, hwTempAt s.hw pc = none → alookup s.sw pc = some bp →
      bp.temp = false →
      ThreadContext.clearTempBreakpoint env s tid pc = (.ok (), s)) := by
  constructor
  · intro h1 h2
    unfold ThreadContext.clearTempBreakpoint
    rw [h1, h2]
  · intro bp h1 h2 h3
    unfold ThreadContext.clearTempBreakpoint
    rw [h1, h2]
    show (if bp.temp = true then clearbpReset env s tid bp
      else ((.ok (), s) : Except Err Unit × DbpState)) = (.ok (), s)
    rw [if_neg (by simp [h3])]

/-! ### Effect of a fresh installation on the stores -/

theorem FindBreakpoint_eq_none_iff {s : DbpState} {pc : Nat} :
    DebuggedProcess.FindBreakpoint s pc = none ↔
      hwFindIdx s.hw pc 0 = none ∧ alookup s.sw pc = none := by
  unfold DebuggedProcess.FindBreakpoint
  rcases h1 : hwFindIdx s.hw pc 0 with _ | p
  · simp
  · obtain ⟨i, bp⟩ := p
    simp

theorem FindBreakpoint_some_guard {s : DbpState} {pc : Nat} {bp0 : BreakPoint}
    (h : DebuggedProcess.FindBreakpoint s pc = some bp0) :
    ((hwFindIdx s.hw pc 0).isSome || (alookup s.sw pc).isSome) = true := by
  unfold DebuggedProcess.FindBreakpoint at h
  rcases h1 : hwFindIdx s.hw pc 0 with _ | p
  · rw [h1] at h
    have h2 : alookup s.sw pc = some bp0 := h
    rw [h2]
    rfl
  · rfl

theorem setBreakpoint_ok_inv {env : Env} {s s1 : DbpState} {tid a : Nat}
    {bp : BreakPoint}
    (h : DebuggedProcess.setBreakpoint env s tid a = (.ok bp, s1)) :
    hwFindIdx s.hw a 0 = none ∧ alookup s.sw a = none ∧ bp.addr = a ∧
      bp.temp = false ∧
      s1.log = s.log ++ [.installBp a] ∧ s1.threads = s.threads ∧
      s1.currentTid = s.currentTid ∧
      ((∃ i, s.hw[i]? = some none ∧ s1.hw = s.hw.set i (some bp) ∧
          s1.sw = s.sw ∧ s1.mem = s.mem) ∨
        (s1.hw = s.hw ∧ s1.sw = (a, bp) :: s.sw)) := by
  rcases hg : ((hwFindIdx s.hw a 0).isSome || (alookup s.sw a).isSome) with _ | _
  · obtain ⟨hhw, hsw⟩ := guard_false_iff.mp hg
    rcases hsf : env.setFail a with _ | _
    · rcases hslot : (if env.hwSupported then freeSlot s.hw 0 else none) with _ | i
      · rw [setBreakpoint_sw_ok hg hsf hslot] at h
        injection h with h1 h2
        injection h1 with h1
        subst h1
        refine ⟨hhw, hsw, rfl, rfl, by rw [← h2]; simp, by rw [← h2]; simp,
          by rw [← h2]; simp, Or.inr ⟨?_, ?_⟩⟩
        · rw [← h2]
          simp
        · rw [← h2]
          simp
      · rw [setBreakpoint_hw_ok hg hsf hslot] at h
        injection h with h1 h2
        injection h1 with h1
        subst h1
        have hget : s.hw[i]? = some none := by
          rcases hsup : env.hwSupported with _ | _
          · rw [hsup] at hslot; simp at hslot
          · rw [hsup] at hslot
            exact freeSlot_spec hslot
        refine ⟨hhw, hsw, rfl, rfl, by rw [← h2]; simp, by rw [← h2]; simp,
          by rw [← h2]; simp, Or.inl ⟨i, hget, ?_, ?_, ?_⟩⟩
        · rw [← h2]
          simp
        · rw [← h2]
          simp
        · rw [← h2]
          simp
    · rw [setBreakpoint_oserr hg hsf] at h
      injection h with h1 h2
      cases h1
  · rw [setBreakpoint_exists hg] at h
    injection h with h1 h2
    cases h1

theorem hw_tempMap_id (a : Nat) (t : Bool) :
    ∀ l : List (Option BreakPoint),
      (∀ bp : BreakPoint, some bp ∈ l → bp.addr ≠ a) →
      l.map (fun o =>
        match o with
        | some bp => if bp.addr = a then some { bp with temp := t } else some bp
        | none => none) = l := by
  intro l
  induction l with
  | nil => intro _; rfl
  | cons ob r ih =>
    intro h
    cases ob with
    | none =>
      simp only [List.map_cons]
      rw [ih (fun bp hm => h bp (List.mem_cons_of_mem _ hm))]
    | some bp =>
      simp only [List.map_cons]
      rw [if_neg (h bp (List.mem_cons_self _ _)),
        ih (fun bp hm => h bp (List.mem_cons_of_mem _ hm))]

theorem sw_tempMap_id (a : Nat) (t : Bool) :
    ∀ l : List (Nat × BreakPoint),
      (∀ p : Nat × BreakPoint, p ∈ l → p.1 ≠ a) →
      l.map (fun p => if p.1 = a then (p.1, { p.2 with temp := t }) else p) = l := by
  intro l
  induction l with
  | nil => intro _; rfl
  | cons p r ih =>
    intro h
    simp only [List.map_cons]
    rw [if_neg (h p (List.mem_cons_self _ _)),
      ih (fun q hm => h q (List.mem_cons_of_mem _ hm))]

theorem hwFindIdx_set_some_found :
    ∀ {l : List (Option BreakPoint)} {i : Nat} {nbp : BreakPoint} {a : Nat},
      nbp.addr = a → (∀ bp' : BreakPoint, some bp' ∈ l → bp'.addr ≠ a) →
      l[i]? = some none →
      hwFindIdx (l.set i (some nbp)) a 0 = some (i, nbp) := by
  intro l
  induction l with
  | nil => intro i nbp a _ _ hg; simp at hg
  | cons ob r ih =>
    intro i nbp a hna hno hg
    cases i with
    | zero =>
      simp at hg
      subst hg
      simp [List.set, hwFindIdx, hna]
    | succ j =>
      have hgr : r[j]? = some none := by simpa using hg
      have hno' : ∀ bp' : BreakPoint, some bp' ∈ r → bp'.addr ≠ a :=
        fun bp' hm => hno bp' (List.mem_cons_of_mem _ hm)
      cases ob with
      | none =>
        show hwFindIdx (r.set j (some nbp)) a 1 = some (j + 1, nbp)
        rw [hwFindIdx_shift, ih hna hno' hgr]
        rfl
      | some bp0 =>
        have hb0 : bp0.addr ≠ a := hno bp0 (List.mem_cons_self _ _)
        show (if bp0.addr = a then _ else hwFindIdx (r.set j (some nbp)) a 1) = _
        rw [if_neg hb0, hwFindIdx_shift, ih hna hno' hgr]
        rfl

theorem hwFindIdx_set_some_other :
    ∀ {l : List (Option BreakPoint)} {i : Nat} {nbp : BreakPoint} {x : Nat}
      (_ : l[i]? = some none) (_ : nbp.addr ≠ x) (k : Nat),
      hwFindIdx (l.set i (some nbp)) x k = hwFindIdx l x k := by
  intro l
  induction l with
  | nil => intro i nbp x hg _ k; simp at hg
  | cons ob r ih =>
    intro i nbp x hg hnx k
    cases i with
    | zero =>
      simp at hg
      subst hg
      show (if nbp.addr = x then _ else hwFindIdx r x (k + 1)) =
        hwFindIdx r x (k + 1)
      rw [if_neg hnx]
    | succ j =>
      have hgr : r[j]? = some none := by simpa using hg
      cases ob with
      | none =>
        show hwFindIdx (r.set j (some nbp)) x (k + 1) = hwFindIdx r x (k + 1)
        exact ih hgr hnx (k + 1)
      | some bp0 =>
        by_cases hb0 : bp0.addr = x
        · simp [hwFindIdx, hb0]
        · show (if bp0.addr = x then _ else hwFindIdx (r.set j (some nbp)) x (k + 1)) =
            (if bp0.addr = x then _ else hwFindIdx r x (k + 1))
          rw [if_neg hb0, if_neg hb0]
          exact ih hgr hnx (k + 1)

theorem setTempAt_after_install (env : Env) {s s1 : DbpState} {tid a : Nat}
    {bp : BreakPoint}
    (h : DebuggedProcess.setBreakpoint env s tid a = (.ok bp, s1)) (t : Bool) :
    DebuggedProcess.FindBreakpoint (setTempAt s1 a t) a = some { bp with temp := t } ∧
      ∀ x, x ≠ a → DebuggedProcess.FindBreakpoint (setTempAt s1 a t) x =
        DebuggedProcess.FindBreakpoint s x := by
  obtain ⟨hhw, hsw, hba, hbt, _, _, _, hcase⟩ := setBreakpoint_ok_inv h
  have hnoA : ∀ bp' : BreakPoint, some bp' ∈ s.hw → bp'.addr ≠ a := by
    intro bp' hm hEq
    exact (hwFindIdx_eq_none.mp hhw) (hEq ▸ mem_hwAddrList hm)
  have hnoK : ∀ p : Nat × BreakPoint, p ∈ s.sw → p.1 ≠ a := by
    intro p hm hEq
    exact (alookup_eq_none.mp hsw) (hEq ▸ mem_swKeys hm)
  rcases hcase with ⟨i, hget, hhw1, hsw1, _⟩ | ⟨hhw1, hsw1⟩
  · -- hardware slot installation
    have hwEq : (setTempAt s1 a t).hw = s.hw.set i (some { bp with temp := t }) := by
      show s1.hw.map _ = _
      rw [hhw1, List.map_set, hw_tempMap_id a t s.hw hnoA]
      have : (match some bp with
        | some bp => if bp.addr = a then some { bp with temp := t } else some bp
        | none => none) = some { bp with temp := t } := by
        show (if bp.addr = a then _ else _) = _
        rw [if_pos hba]
      rw [this]
    have hswEq : (setTempAt s1 a t).sw = s.sw := by
      show s1.sw.map _ = _
      rw [hsw1, sw_tempMap_id a t s.sw hnoK]
    constructor
    · unfold DebuggedProcess.FindBreakpoint
      rw [hwEq, hwFindIdx_set_some_found (by exact hba) hnoA hget]
    · intro x hx
      unfold DebuggedProcess.FindBreakpoint
      rw [hwEq, hswEq, hwFindIdx_set_some_other hget
        (by rw [hba]; exact fun hh => hx hh.symm) 0]
  · -- software installation
    have hwEq : (setTempAt s1 a t).hw = s.hw := by
      show s1.hw.map _ = _
      rw [hhw1, hw_tempMap_id a t s.hw hnoA]
    have hswEq : (setTempAt s1 a t).sw =
        (a, { bp with temp := t }) :: s.sw := by
      show s1.sw.map _ = _
      rw [hsw1, List.map_cons]
      have h1 : (if (a, bp).1 = a then ((a, bp).1, { (a, bp).2 with temp := t })
          else (a, bp)) = (a, { bp with temp := t }) := by
        rw [if_pos rfl]
      rw [h1, sw_tempMap_id a t s.sw hnoK]
    constructor
    · unfold DebuggedProcess.FindBreakpoint
      rw [hwEq, hswEq, hhw]
      show alookup ((a, { bp with temp := t }) :: s.sw) a = _
      unfold alookup
      rw [if_pos rfl]
    · intro x hx
      unfold DebuggedProcess.FindBreakpoint
      rw [hwEq, hswEq]
      rcases hfx : hwFindIdx s.hw x 0 with _ | p
      · show (if a = x then some { bp with temp := t } else alookup s.sw x) =
          alookup s.sw x
        rw [if_neg (fun hh => hx hh.symm)]
      · rfl

theorem installPCs_cons_ok {env : Env} {tid curpc : Nat} {fde : FDE}
    {s : DbpState} {pc pc2 : Nat} {rest : List Nat} (hne : pc ≠ curpc)
    (hch : (if fde.cover pc = true then (.ok pc : Except Err Nat)
      else ThreadContext.ReturnAddressFromOffset env s tid
        (fde.returnAddressOffset curpc)) = .ok pc2) :
    installPCs env tid curpc fde s (pc :: rest) =
      match DebuggedProcess.Break env s pc2 with
      | (.error (.breakPointExists _), s1) => installPCs env tid curpc fde s1 rest
      | (.error e, s1) => (.error e, s1)
      | (.ok bp, s1) => installPCs env tid curpc fde (setTempAt s1 bp.addr true) rest := by
  rw [installPCs, if_neg hne, hch]

theorem setBreakpoint_fresh {env : Env} {s : DbpState} {tid a : Nat}
    (hg : ((hwFindIdx s.hw a 0).isSome || (alookup s.sw a).isSome) = false)
    (hsf : env.setFail a = false) :
    ∃ bp s1, DebuggedProcess.setBreakpoint env s tid a = (.ok bp, s1) := by
  rcases hslot : (if env.hwSupported then freeSlot s.hw 0 else none) with _ | i
  · exact ⟨_, _, setBreakpoint_sw_ok hg hsf hslot⟩
  · exact ⟨_, _, setBreakpoint_hw_ok hg hsf hslot⟩

theorem setBreakpoint_error_state {env : Env} {s s1 : DbpState} {tid a : Nat}
    {e : Err} (h : DebuggedProcess.setBreakpoint env s tid a = (.error e, s1)) :
    s1 = s := by
  unfold DebuggedProcess.setBreakpoint at h
  split at h
  · injection h with h1 h2
    exact h2.symm
  · split at h
    · injection h with h1 h2
      exact h2.symm
    · split at h
      · injection h with h1 h2
        cases h1
      · injection h with h1 h2
        cases h1

theorem setTempAt_after_install_stores (env : Env) {s s1 : DbpState}
    {tid a : Nat} {bp : BreakPoint}
    (h : DebuggedProcess.setBreakpoint env s tid a = (.ok bp, s1)) :
    ((setTempAt s1 a true).sw = s.sw ∨
      (setTempAt s1 a true).sw = (a, { bp with temp := true }) :: s.sw) ∧
    ((setTempAt s1 a true).hw = s.hw ∨
      ∃ i, (setTempAt s1 a true).hw = s.hw.set i (some { bp with temp := true })) := by
  obtain ⟨hhw, hsw, hba, hbt, _, _, _, hcase⟩ := setBreakpoint_ok_inv h
  have hnoA : ∀ bp' : BreakPoint, some bp' ∈ s.hw → bp'.addr ≠ a := by
    intro bp' hm hEq
    exact (hwFindIdx_eq_none.mp hhw) (hEq ▸ mem_hwAddrList hm)
  have hnoK : ∀ p : Nat × BreakPoint, p ∈ s.sw → p.1 ≠ a := by
    intro p hm hEq
    exact (alookup_eq_none.mp hsw) (hEq ▸ mem_swKeys hm)
  rcases hcase with ⟨i, hget, hhw1, hsw1, _⟩ | ⟨hhw1, hsw1⟩
  · refine ⟨Or.inl ?_, Or.inr ⟨i, ?_⟩⟩
    · show s1.sw.map _ = _
      rw [hsw1, sw_tempMap_id a true s.sw hnoK]
    · show s1.hw.map _ = _
      rw [hhw1, List.map_set, hw_tempMap_id a true s.hw hnoA]
      have hred : (match some bp with
        | some bp => if bp.addr = a then some { bp with temp := true } else some bp
        | none => none) = some { bp with temp := true } := by
        show (if bp.addr = a then _ else _) = _
        rw [if_pos hba]
      rw [hred]
  · refine ⟨Or.inr ?_, Or.inl ?_⟩
    · show s1.sw.map _ = _
      rw [hsw1, List.map_cons]
      have h1 : (if (a, bp).1 = a then ((a, bp).1, { (a, bp).2 with temp := true })
          else (a, bp)) = (a, { bp with temp := true }) := by
        rw [if_pos rfl]
      rw [h1, sw_tempMap_id a true s.sw hnoK]
    · show s1.hw.map _ = _
      rw [hhw1, hw_tempMap_id a true s.hw hnoA]

/-- C4: per-candidate processing of the install loop of the per-thread next
(threads.go:224-244): a candidate equal to the (breakpoint-corrected)
current PC is skipped; a candidate not covered by the current FDE is
replaced by the frame's return address before installing; each installed
breakpoint carries the Temp flag; an AlreadyExists failure from the
installation is swallowed and iteration continues; every other installation
failure aborts the loop with that error. -/
theorem install_candidates_spec (env : Env) (tid curpc : Nat) (fde : FDE) :
    (∀ (s : DbpState) (rest : List Nat),
      installPCs env tid curpc fde s (curpc :: rest) =
        installPCs env tid curpc fde s rest) ∧
    (∀ (s : DbpState) (pc : Nat), pc ≠ curpc → fde.cover pc = true →
      DebuggedProcess.FindBreakpoint s pc = none → env.setFail pc = false →
      (installPCs env tid curpc fde s [pc]).1 = .ok () ∧
      ∃ bp : BreakPoint,
        DebuggedProcess.FindBreakpoint
          (installPCs env tid curpc fde s [pc]).2 pc = some bp ∧
        bp.temp = true) ∧
    (∀ (s : DbpState) (pc : Nat) (r : ThreadRegs), pc ≠ curpc →
      fde.cover pc = false → env.regFail tid = false →
      alookup s.threads tid = some r →
      DebuggedProcess.FindBreakpoint s
        (readMem8 s.mem ((r.sp : Int) + fde.returnAddressOffset curpc).toNat) = none →
      env.setFail
        (readMem8 s.mem ((r.sp : Int) + fde.returnAddressOffset curpc).toNat) = false →
      (installPCs env tid curpc fde s [pc]).1 = .ok () ∧
      (∃ bp : BreakPoint,
        DebuggedProcess.FindBreakpoint (installPCs env tid curpc fde s [pc]).2
          (readMem8 s.mem ((r.sp : Int) + fde.returnAddressOffset curpc).toNat) =
            some bp ∧ bp.temp = true) ∧
      (pc ≠ readMem8 s.mem ((r.sp : Int) + fde.returnAddressOffset curpc).toNat →
        DebuggedProcess.FindBreakpoint (installPCs env tid curpc fde s [pc]).2 pc =
          DebuggedProcess.FindBreakpoint s pc)) ∧
    (∀ (s : DbpState) (pc : Nat) (rest : List Nat) (bp0 : BreakPoint),
      pc ≠ curpc → fde.cover pc = true →
      DebuggedProcess.FindBreakpoint s pc = some bp0 →
      installPCs env tid curpc fde s (pc :: rest) =
        installPCs env tid curpc fde s rest) ∧
    (∀ (s : DbpState) (pc : Nat) (rest : List Nat),
      pc ≠ curpc → fde.cover pc = true →
      DebuggedProcess.FindBreakpoint s pc = none → env.setFail pc = true →
      installPCs env tid curpc fde s (pc :: rest) = (.error (.external 4), s)) ∧
    (∀ (pcs : List Nat) (s : DbpState),
      (∀ p : Nat × BreakPoint, p ∈ (installPCs env tid curpc fde s pcs).2.sw →
        p ∈ s.sw ∨ p.2.temp = true) ∧
      (∀ ob : Option BreakPoint, ob ∈ (installPCs env tid curpc fde s pcs).2.hw →
        ob ∈ s.hw ∨ ∃ bp : BreakPoint, ob = some bp ∧ bp.temp = true)) := by
  refine ⟨?_, ?_, ?_, ?_, ?_, ?_⟩
  · intro s rest
    rw [installPCs, if_pos rfl]
  · intro s pc hne hcov hfind hsf
    obtain ⟨hhw, hsw⟩ := FindBreakpoint_eq_none_iff.mp hfind
    have hguard : ((hwFindIdx s.hw pc 0).isSome || (alookup s.sw pc).isSome) = false := by
      rw [hhw, hsw]
      rfl
    obtain ⟨bp, s1, hb⟩ := @setBreakpoint_fresh _ _ s.currentTid _ hguard hsf
    have hbB : DebuggedProcess.Break env s pc = (.ok bp, s1) := hb
    obtain ⟨_, _, hba, _, _, _, _, _⟩ := setBreakpoint_ok_inv hb
    have hrun : installPCs env tid curpc fde s [pc] =
        (.ok (), setTempAt s1 bp.addr true) := by
      rw [installPCs_cons_ok hne (if_pos hcov), hbB]
      rfl
    rw [hrun]
    refine ⟨rfl, ⟨{ bp with temp := true }, ?_, rfl⟩⟩
    show DebuggedProcess.FindBreakpoint (setTempAt s1 bp.addr true) pc = _
    conv_lhs => rw [hba]
    exact (setTempAt_after_install env hb true).1
  · intro s pc r hne hcov hrf hth hfind hsf
    have hra : ThreadContext.ReturnAddressFromOffset env s tid
        (fde.returnAddressOffset curpc) =
        .ok (readMem8 s.mem ((r.sp : Int) + fde.returnAddressOffset curpc).toNat) := by
      unfold ThreadContext.ReturnAddressFromOffset
      rw [if_neg (by simp [hrf]), hth]
    have hch : (if fde.cover pc = true then (.ok pc : Except Err Nat)
        else ThreadContext.ReturnAddressFromOffset env s tid
          (fde.returnAddressOffset curpc)) =
        .ok (readMem8 s.mem ((r.sp : Int) + fde.returnAddressOffset curpc).toNat) := by
      rw [if_neg (by simp [hcov])]
      exact hra
    obtain ⟨hhw, hsw⟩ := FindBreakpoint_eq_none_iff.mp hfind
    have hguard : ((hwFindIdx s.hw
        (readMem8 s.mem ((r.sp : Int) + fde.returnAddressOffset curpc).toNat) 0).isSome ||
        (alookup s.sw
          (readMem8 s.mem ((r.sp : Int) + fde.returnAddressOffset curpc).toNat)).isSome) =
        false := by
      rw [hhw, hsw]
      rfl
    obtain ⟨bp, s1, hb⟩ := @setBreakpoint_fresh _ _ s.currentTid _ hguard hsf
    have hbB : DebuggedProcess.Break env s
        (readMem8 s.mem ((r.sp : Int) + fde.returnAddressOffset curpc).toNat) =
        (.ok bp, s1) := hb
    obtain ⟨_, _, hba, _, _, _, _, _⟩ := setBreakpoint_ok_inv hb
    have hrun : installPCs env tid curpc fde s [pc] =
        (.ok (), setTempAt s1 bp.addr true) := by
      rw [installPCs_cons_ok hne hch, hbB]
      rfl
    rw [hrun]
    refine ⟨rfl, ⟨{ bp with temp := true }, ?_, rfl⟩, ?_⟩
    · show DebuggedProcess.FindBreakpoint (setTempAt s1 bp.addr true) _ = _
      conv_lhs => rw [hba]
      exact (setTempAt_after_install env hb true).1
    · intro hner
      show DebuggedProcess.FindBreakpoint (setTempAt s1 bp.addr true) pc = _
      conv_lhs => rw [hba]
      exact (setTempAt_after_install env hb true).2 pc hner
  · intro s pc rest bp0 hne hcov hfound
    have hguard := FindBreakpoint_some_guard hfound
    have hbB : DebuggedProcess.Break env s pc = (.error (.breakPointExists pc), s) :=
      setBreakpoint_exists hguard
    rw [installPCs_cons_ok hne (if_pos hcov), hbB]
  · intro s pc rest hne hcov hfind hsf
    obtain ⟨hhw, hsw⟩ := FindBreakpoint_eq_none_iff.mp hfind
    have hguard : ((hwFindIdx s.hw pc 0).isSome || (alookup s.sw pc).isSome) = false := by
      rw [hhw, hsw]
      rfl
    have hbB : DebuggedProcess.Break env s pc = (.error (.external 4), s) :=
      setBreakpoint_oserr hguard hsf
    rw [installPCs_cons_ok hne (if_pos hcov), hbB]
  · intro pcs
    induction pcs with
    | nil =>
      intro s
      exact ⟨fun p hp => Or.inl hp, fun ob hob => Or.inl hob⟩
    | cons pc rest ih =>
      intro s
      rw [installPCs]
      split
      · exact ih s
      · split
        · exact ⟨fun p hp => Or.inl hp, fun ob hob => Or.inl hob⟩
        · next pc2 hch =>
          split
          · next a s1 heqB =>
            have hs1 : s1 = s := setBreakpoint_error_state heqB
            subst hs1
            exact ih _
          · next e2 s1 hno heqB =>
            have hs1 : s1 = s := setBreakpoint_error_state heqB
            subst hs1
            exact ⟨fun p hp => Or.inl hp, fun ob hob => Or.inl hob⟩
          · next bp s1 heqB =>
            obtain ⟨hswCase, hhwCase⟩ := setTempAt_after_install_stores env heqB
            obtain ⟨_, _, hba, _, _, _, _, _⟩ := setBreakpoint_ok_inv heqB
            rw [hba]
            have hstep := ih (setTempAt s1 pc2 true)
            refine ⟨?_, ?_⟩
            · intro p hp
              rcases hstep.1 p hp with h1 | h1
              · rcases hswCase with h2 | h2
                · rw [h2] at h1
                  exact Or.inl h1
                · rw [h2] at h1
                  rcases List.mem_cons.mp h1 with h3 | h3
                  · rw [h3]
                    exact Or.inr rfl
                  · exact Or.inl h3
              · exact Or.inr h1
            · intro ob hob
              rcases hstep.2 ob hob with h1 | h1
              · rcases hhwCase with h2 | ⟨i, h2⟩
                · rw [h2] at h1
                  exact Or.inl h1
                · rw [h2] at h1
                  rcases List.mem_or_eq_of_mem_set h1 with h3 | h3
                  · exact Or.inl h3
                  · exact Or.inr ⟨{ bp with temp := true }, h3, rfl⟩
              · exact Or.inr h1

/-- Witness for C4: installing at a fresh covered candidate yields a Temp
breakpoint there, and a candidate equal to the current PC is skipped. -/
theorem install_candidates_spec_witness :
    ((installPCs baseEnv 1 200 flatFDE stC1 [33]).1 = .ok () ∧
      ∃ bp : BreakPoint,
        DebuggedProcess.FindBreakpoint (installPCs baseEnv 1 200 flatFDE stC1 [33]).2 33 =
          some bp ∧ bp.temp = true) ∧
    installPCs baseEnv 1 200 flatFDE stC1 [200] = installPCs baseEnv 1 200 flatFDE stC1 [] :=
  ⟨(install_candidates_spec baseEnv 1 200 flatFDE).2.1 stC1 33
      (by decide) (by decide) (by decide) (by decide),
   (install_candidates_spec baseEnv 1 200 flatFDE).1 stC1 []⟩

/-- C1 (code evidence): the `GoroutineExitingError` check in the thread loop
of the session-level `next` (proctl.go:323-327) sits after an unconditional
`return err` and is dead code; when stepping a non-blocked thread fails with
the GoroutineExiting signal the whole operation aborts with that error, and
the remaining threads are never issued next or continue. -/
theorem next_goroutine_exiting_aborts :
    (DebuggedProcess.next envC1 5 stC1).1 = .err (.goroutineExiting 7) ∧
      Action.nextIssued 2 ∉ (DebuggedProcess.next envC1 5 stC1).2.log ∧
      Action.contIssued 2 ∉ (DebuggedProcess.next envC1 5 stC1).2.log ∧
      Action.nextIssued 1 ∈ (DebuggedProcess.next envC1 5 stC1).2.log := by
  decide

/-- C6 (code evidence): `GoroutinesInfo` ignores the error returned by the
`readMemory` of the `runtime.allg` base pointer (proctl.go:445-446): with
that read failing, it still returns a complete goroutine list instead of
aborting with the error. -/
theorem goroutines_info_ignores_read_failure :
    (envC6.readMem 64 8).2 = some (.external 6) ∧
      DebuggedProcess.GoroutinesInfo envC6 = .ok [gC6] := by
  exact ⟨rfl, rfl⟩

/-- Witness for C2: at the concrete base state, the session `next` exits
through the failing trap-wait and no temp breakpoint remains. -/
theorem next_clears_all_temp_breakpoints_witness :
    noTempB (DebuggedProcess.next envC2w 3 baseState).2 = true :=
  (next_clears_all_temp_breakpoints envC2w 3 baseState
    ⟨by decide, by decide, by decide⟩ (by decide) (fun _ => rfl) (fun _ => rfl)
    (by decide)).1

/-- Witness for C3: a thread at the tail of its goroutine, with the frame
returning into `runtime.goexit`, gets the GoroutineExiting signal with the
goroutine id, and the state is unchanged. -/
theorem thread_next_empty_lines_witness :
    ThreadContext.next envC1 stC1 1 200 flatFDE "main.go" 5 =
      (.error (.goroutineExiting 7), stC1) :=
  (thread_next_empty_lines envC1 stC1 1 200 flatFDE "main.go" 5 0 rfl rfl).1
    ⟨"runtime.goexit", 0, 99⟩ (by decide) (by decide)
    ⟨7, 0, 0, 0, "main.go", 1, ""⟩ rfl

/-- Witness for C9: disarm failure on slot 0 leaves the record removed
while the operation reports an error. -/
theorem clear_hw_breakpoint_not_atomic_witness :
    (DebuggedProcess.clearBreakpoint envC9 stC9 1 200).1 = .error (.external 3) ∧
      (DebuggedProcess.clearBreakpoint envC9 stC9 1 200).2.hw = stC9.hw.set 0 none ∧
      DebuggedProcess.FindBreakpoint
        (DebuggedProcess.clearBreakpoint envC9 stC9 1 200).2 200 = none :=
  clear_hw_breakpoint_not_atomic envC9 stC9 1 200 0 ⟨2, 200, false, 0⟩
    (by decide) (by decide) (by decide) (by decide)

/-- Witness for C10: a pc with no breakpoint, and the pc of a non-temp user
breakpoint, are both successful no-ops. -/
theorem clear_temp_breakpoint_noop_witness :
    ThreadContext.clearTempBreakpoint baseEnv baseState 1 50 = (.ok (), baseState) ∧
      ThreadContext.clearTempBreakpoint baseEnv baseState 1 100 = (.ok (), baseState) :=
  ⟨(clear_temp_breakpoint_noop baseEnv baseState 1 50).1 (by decide) (by decide),
   (clear_temp_breakpoint_noop baseEnv baseState 1 100).2 ⟨1, 100, false, 7⟩
     (by decide) (by decide) (by decide)⟩

/-! ### C5: stepping over a software breakpoint in per-thread Continue -/

theorem alookup_filter_self (l : List (Nat × BreakPoint)) (a : Nat) :
    alookup (l.filter (fun p => p.1 != a)) a = none := by
  rw [alookup_eq_none]
  intro hm
  rcases List.mem_map.mp hm with ⟨p, hp, hpa⟩
  have h2 := (List.mem_filter.mp hp).2
  rw [hpa] at h2
  simp at h2

theorem CurrentPC_ok {env : Env} {tid : Nat} (hrf : env.regFail tid = false)
    {s : DbpState} {r : ThreadRegs} (hth : alookup s.threads tid = some r) :
    ThreadContext.CurrentPC env s tid = .ok r.pc := by
  unfold ThreadContext.CurrentPC
  rw [hrf, if_neg (by decide), hth]

theorem SetPC_okEq {env : Env} {tid : Nat} (hrf : env.regFail tid = false)
    (hspf : env.setPCFail tid = false) (s : DbpState) (a : Nat) :
    ThreadContext.SetPC env s tid a =
      (.ok (), addLog (updRegs s tid (fun r => { r with pc := a }))
        (.setPC tid a)) := by
  unfold ThreadContext.SetPC
  rw [hrf, if_neg (by decide), hspf, if_neg (by decide)]

theorem singleStep_okEq {env : Env} {tid : Nat} (hstf : env.stepFail tid = false)
    (s : DbpState) :
    ThreadContext.singleStep env s tid =
      (.ok (),
       addLog (updRegs s tid (fun r => { r with pc := env.stepPC tid r.pc }))
         (.singleStep tid)) := by
  unfold ThreadContext.singleStep
  rw [hstf, if_neg (by decide)]

theorem resume_okEq {env : Env} {tid : Nat} (hrsf : env.resumeFail tid = false)
    (s : DbpState) :
    ThreadContext.resume env s tid = (.ok (), addLog s (.resumeTh tid)) := by
  unfold ThreadContext.resume
  rw [hrsf, if_neg (by decide)]

theorem stepOverMid_hw (env : Env) (s : DbpState) (tid : Nat) (bp : BreakPoint) :
    (stepOverMid env s tid bp).hw = s.hw := rfl

theorem stepOverMid_sw (env : Env) (s : DbpState) (tid : Nat) (bp : BreakPoint) :
    (stepOverMid env s tid bp).sw = s.sw.filter (fun p => p.1 != bp.addr) := rfl

theorem stepOverMid_log (env : Env) (s : DbpState) (tid : Nat) (bp : BreakPoint) :
    (stepOverMid env s tid bp).log =
      s.log ++ [.clearBp bp.addr, .setPC tid bp.addr, .singleStep tid] := by
  simp [stepOverMid]

theorem FindBreakpoint_addLog (s : DbpState) (a : Action) (pc : Nat) :
    DebuggedProcess.FindBreakpoint (addLog s a) pc =
      DebuggedProcess.FindBreakpoint s pc := rfl

/-- C5: per-thread `Continue` first tests whether the software-breakpoint
map contains `pc − 1` for the thread's current PC.  If so it steps over the
breakpoint before resuming — clear the breakpoint, reset the PC to the
breakpoint's address, single-step the thread, re-install the breakpoint with
its `Temp` flag preserved (visible as the exact action trace and as the
re-installed breakpoint found at the address with the original `Temp` flag)
— and otherwise the thread is resumed directly. -/
theorem continue_steps_over_sw_breakpoint (env : Env) (tid : Nat) :
    (∀ (s : DbpState) (r : ThreadRegs) (bp : BreakPoint),
      wf s →
      env.regFail tid = false →
      alookup s.threads tid = some r →
      alookup s.sw (sub1w r.pc) = some bp →
      env.memWriteFail bp.addr = false →
      env.setPCFail tid = false →
      env.stepFail tid = false →
      env.setFail bp.addr = false →
      env.resumeFail tid = false →
      (ThreadContext.Continue env s tid).1 = .ok () ∧
        (ThreadContext.Continue env s tid).2.log =
          s.log ++ [.clearBp bp.addr, .setPC tid bp.addr, .singleStep tid,
            .installBp bp.addr, .resumeTh tid] ∧
        ∃ nb : BreakPoint,
          DebuggedProcess.FindBreakpoint (ThreadContext.Continue env s tid).2
              bp.addr = some nb ∧
            nb.temp = bp.temp ∧ nb.addr = bp.addr) ∧
    (∀ (s : DbpState) (r : ThreadRegs),
      env.regFail tid = false →
      alookup s.threads tid = some r →
      alookup s.sw (sub1w r.pc) = none →
      env.resumeFail tid = false →
      ThreadContext.Continue env s tid = (.ok (), addLog s (.resumeTh tid))) := by
  constructor
  · intro s r bp h hrf hth hbp hmw hspf hstf hsf hrsf
    have hkey : bp.addr = sub1w r.pc := h.2.1 _ (alookup_some hbp)
    have hbp' : alookup s.sw bp.addr = some bp := by rw [hkey]; exact hbp
    have hhwN : hwFindIdx s.hw bp.addr 0 = none := by
      rw [hwFindIdx_eq_none]
      intro hmA
      exact (List.disjoint_of_nodup_append h.1) hmA (mem_swKeys (alookup_some hbp'))
    have hclear := @clearBreakpoint_sw_ok env s s.currentTid bp.addr bp hhwN hbp' hmw
    have hg : ((hwFindIdx (stepOverMid env s tid bp).hw bp.addr 0).isSome ||
        (alookup (stepOverMid env s tid bp).sw bp.addr).isSome) = false := by
      rw [stepOverMid_hw, stepOverMid_sw, hhwN, alookup_filter_self]
      rfl
    obtain ⟨nbp, S4, hsb⟩ :=
      @setBreakpoint_fresh env (stepOverMid env s tid bp) s.currentTid bp.addr hg hsf
    have hsb' := hsb
    unfold stepOverMid at hsb'
    have hstep : ThreadContext.Step env s tid =
        (.ok (), setTempAt S4 nbp.addr bp.temp) := by
      unfold ThreadContext.Step
      simp only [CurrentPC_ok hrf hth, hbp, hclear, SetPC_okEq hrf hspf,
        singleStep_okEq hstf, hsb']
    obtain ⟨hhw4, hsw4, hba, hbt, hlog4, hth4, hct4, _⟩ := setBreakpoint_ok_inv hsb
    have hcont : ThreadContext.Continue env s tid =
        (.ok (), addLog (setTempAt S4 nbp.addr bp.temp) (.resumeTh tid)) := by
      unfold ThreadContext.Continue
      simp only [CurrentPC_ok hrf hth, hbp, Option.isSome_some]
      rw [if_true, hstep]
      simp only [resume_okEq hrsf]
    refine ⟨by rw [hcont], ?_, ?_⟩
    · rw [hcont]
      show (addLog (setTempAt S4 nbp.addr bp.temp) (.resumeTh tid)).log = _
      rw [addLog_log, setTempAt_log, hlog4, stepOverMid_log]
      simp
    · obtain ⟨hfind, _⟩ := setTempAt_after_install env hsb bp.temp
      refine ⟨{ nbp with temp := bp.temp }, ?_, rfl, hba⟩
      rw [hcont]
      show DebuggedProcess.FindBreakpoint
          (addLog (setTempAt S4 nbp.addr bp.temp) (.resumeTh tid)) bp.addr = _
      rw [FindBreakpoint_addLog]
      conv_lhs => rw [hba]
      exact hfind
  · intro s r hrf hth hnone hrsf
    unfold ThreadContext.Continue
    simp only [CurrentPC_ok hrf hth, hnone, Option.isSome_none]
    rw [if_neg (by decide)]
    exact resume_okEq hrsf s

/-- Witness for C5: in the base state the thread sits one byte past the
software breakpoint at 100, which is stepped over and re-installed with its
non-temp flag; in a state with an empty software map the thread is resumed
directly. -/
theorem continue_steps_over_sw_breakpoint_witness :
    ((ThreadContext.Continue baseEnv baseState 1).1 = .ok () ∧
      (ThreadContext.Continue baseEnv baseState 1).2.log =
        baseState.log ++ [.clearBp 100, .setPC 1 100, .singleStep 1,
          .installBp 100, .resumeTh 1] ∧
      ∃ nb : BreakPoint,
        DebuggedProcess.FindBreakpoint
            (ThreadContext.Continue baseEnv baseState 1).2 100 = some nb ∧
          nb.temp = false ∧ nb.addr = 100) ∧
    ThreadContext.Continue baseEnv stC1 1 = (.ok (), addLog stC1 (.resumeTh 1)) :=
  ⟨(continue_steps_over_sw_breakpoint baseEnv 1).1 baseState ⟨101, 500⟩
      ⟨1, 100, false, 7⟩ ⟨by decide, by decide, by decide⟩ rfl rfl rfl rfl rfl
      rfl rfl rfl,
   (continue_steps_over_sw_breakpoint baseEnv 1).2 stC1 ⟨200, 500⟩ rfl rfl rfl rfl⟩

/-! ### C7: classification of a trap during session Continue -/

theorem alookup_map_upd (f : ThreadRegs → ThreadRegs) :
    ∀ (l : List (Nat × ThreadRegs)) {tid : Nat} {r : ThreadRegs},
      alookup l tid = some r →
      alookup (l.map (fun p => if p.1 = tid then (p.1, f p.2) else p)) tid =
        some (f r) := by
  intro l
  induction l with
  | nil => intro tid r h; simp [alookup] at h
  | cons p rest ih =>
    intro tid r h
    obtain ⟨k, w⟩ := p
    by_cases hk : k = tid
    · subst hk
      unfold alookup at h
      rw [if_pos rfl] at h
      have hw := Option.some.inj h
      subst hw
      show alookup ((if k = k then (k, f w) else (k, w)) :: _) k = some (f w)
      rw [if_pos rfl]
      unfold alookup
      rw [if_pos rfl]
    · unfold alookup at h
      rw [if_neg hk] at h
      show alookup ((if k = tid then (k, f w) else (k, w)) :: _) tid = some (f r)
      rw [if_neg hk]
      unfold alookup
      rw [if_neg hk]
      exact ih h

theorem alookup_updRegs {s : DbpState} {tid : Nat} {r : ThreadRegs}
    (h : alookup s.threads tid = some r) (f : ThreadRegs → ThreadRegs) :
    alookup (updRegs s tid f).threads tid = some (f r) := by
  show alookup (s.threads.map (fun p => if p.1 = tid then (p.1, f p.2) else p))
    tid = some (f r)
  exact alookup_map_upd f s.threads h

theorem Step_nobp {env : Env} {tid : Nat} (hrf : env.regFail tid = false)
    (hstf : env.stepFail tid = false) {s : DbpState} {r : ThreadRegs}
    (hth : alookup s.threads tid = some r)
    (hno : alookup s.sw (sub1w r.pc) = none) :
    ThreadContext.Step env s tid =
      (.ok (),
       addLog (updRegs s tid (fun rr => { rr with pc := env.stepPC tid rr.pc }))
         (.singleStep tid)) := by
  unfold ThreadContext.Step
  simp only [CurrentPC_ok hrf hth, hno, singleStep_okEq hstf]

theorem Halt_okEq {env : Env} (hhf : env.haltFail = false) (s : DbpState) :
    DebuggedProcess.Halt env s = (.ok (), addLog s .halt) := by
  simp [DebuggedProcess.Halt, hhf]

/-- C7: after a trap during `Continue`, the stop is classified in order —
a set, non-temp current breakpoint halts the session with success; else a
trap PC inside `runtime.breakpoint` advances the thread exactly two
instructions and then halts with success; in every other case the operation
fails with the unrecognized-trap error naming the PC. -/
theorem resume_classifies_trap (env : Env) (s s1 : DbpState) (tid : Nat)
    (r1 : ThreadRegs)
    (htrap : env.trapRes 0 = .ok tid)
    (hhand : DebuggedProcess.handleBreakpointOnThread env s tid = .ok s1)
    (hrf : env.regFail tid = false)
    (hth1 : alookup s1.threads tid = some r1) :
    (∀ cbp : BreakPoint, s1.currentBp = some cbp → cbp.temp = false →
      env.haltFail = false →
      (DebuggedProcess.resume env s).1 = .ok () ∧
        (DebuggedProcess.resume env s).2.log = s1.log ++ [.halt]) ∧
    (∀ fn : Func,
      (s1.currentBp = none ∨ ∃ cbp, s1.currentBp = some cbp ∧ cbp.temp = true) →
      env.pcToFunc r1.pc = some fn →
      fn.name = "runtime.breakpoint" →
      env.stepFail tid = false →
      alookup s1.sw (sub1w r1.pc) = none →
      alookup s1.sw (sub1w (env.stepPC tid r1.pc)) = none →
      env.haltFail = false →
      (DebuggedProcess.resume env s).1 = .ok () ∧
        (DebuggedProcess.resume env s).2.log =
          s1.log ++ [.singleStep tid, .singleStep tid, .halt] ∧
        alookup (DebuggedProcess.resume env s).2.threads tid =
          some ⟨env.stepPC tid (env.stepPC tid r1.pc), r1.sp⟩) ∧
    ((s1.currentBp = none ∨ ∃ cbp, s1.currentBp = some cbp ∧ cbp.temp = true) →
      (env.pcToFunc r1.pc = none ∨
        ∃ fn, env.pcToFunc r1.pc = some fn ∧ fn.name ≠ "runtime.breakpoint") →
      (DebuggedProcess.resume env s).1 = .error (.unrecognized r1.pc)) := by
  have htw : trapWait env s 0 = .ok (tid, s1) := by
    unfold trapWait
    simp only [htrap, hhand]
  have hthIte : alookup (if s1.currentTid = tid then s1
      else { s1 with currentTid := tid }).threads tid = some r1 := by
    split
    · exact hth1
    · exact hth1
  have hcb : (if s1.currentTid = tid then s1
      else { s1 with currentTid := tid }).currentBp = s1.currentBp := by
    split <;> rfl
  have hlogIte : (if s1.currentTid = tid then s1
      else { s1 with currentTid := tid }).log = s1.log := by
    split <;> rfl
  have hswIte : (if s1.currentTid = tid then s1
      else { s1 with currentTid := tid }).sw = s1.sw := by
    split <;> rfl
  refine ⟨?_, ?_, ?_⟩
  · intro cbp hcbeq hct hhf
    unfold DebuggedProcess.resume
    simp only [htw]
    generalize hT : (if s1.currentTid = tid then s1
      else { s1 with currentTid := tid }) = T
    have hthT : alookup T.threads tid = some r1 := hT ▸ hthIte
    have hcbT : T.currentBp = some cbp := (hT ▸ hcb).trans hcbeq
    have hlogT : T.log = s1.log := hT ▸ hlogIte
    simp only [CurrentPC_ok hrf hthT, hcbT]
    rw [hct, if_pos rfl, Halt_okEq hhf]
    refine ⟨rfl, ?_⟩
    show (addLog T .halt).log = s1.log ++ [.halt]
    rw [addLog_log, hlogT]
  · intro fn hnb hfn hname hstf hno1 hno2 hhf
    unfold DebuggedProcess.resume
    simp only [htw]
    generalize hT : (if s1.currentTid = tid then s1
      else { s1 with currentTid := tid }) = T
    have hthT : alookup T.threads tid = some r1 := hT ▸ hthIte
    have hcbT : T.currentBp = s1.currentBp := hT ▸ hcb
    have hlogT : T.log = s1.log := hT ▸ hlogIte
    have hswT : T.sw = s1.sw := hT ▸ hswIte
    have hsw1T : alookup T.sw (sub1w r1.pc) = none := by
      rw [hswT]
      exact hno1
    have hstep1 := Step_nobp hrf hstf hthT hsw1T
    have hth2 : alookup (addLog (updRegs T tid
        (fun rr => { rr with pc := env.stepPC tid rr.pc }))
        (.singleStep tid)).threads tid =
        some { pc := env.stepPC tid r1.pc, sp := r1.sp } := by
      rw [addLog_threads]
      exact alookup_updRegs hthT _
    have hsw2 : alookup (addLog (updRegs T tid
        (fun rr => { rr with pc := env.stepPC tid rr.pc }))
        (.singleStep tid)).sw (sub1w (env.stepPC tid r1.pc)) = none := by
      rw [addLog_sw, updRegs_sw, hswT]
      exact hno2
    have hstep2 := Step_nobp hrf hstf hth2 hsw2
    simp only [CurrentPC_ok hrf hthT]
    rcases hnb with hnbn | ⟨cbp, hcbe, hctt⟩
    · simp only [hcbT.trans hnbn, hfn]
      rw [hname, if_pos rfl]
      simp only [hstep1, hstep2, Halt_okEq hhf]
      refine ⟨by trivial, ?_, ?_⟩
      · simp [hlogT]
      · simp only [addLog_threads]
        exact alookup_updRegs hth2 _
    · simp only [hcbT.trans hcbe]
      rw [hctt, if_neg (by decide)]
      simp only [hfn]
      rw [hname, if_pos rfl]
      simp only [hstep1, hstep2, Halt_okEq hhf]
      refine ⟨by trivial, ?_, ?_⟩
      · simp [hlogT]
      · simp only [addLog_threads]
        exact alookup_updRegs hth2 _
  · intro hnb hbad
    unfold DebuggedProcess.resume
    simp only [htw]
    generalize hT : (if s1.currentTid = tid then s1
      else { s1 with currentTid := tid }) = T
    have hthT : alookup T.threads tid = some r1 := hT ▸ hthIte
    have hcbT : T.currentBp = s1.currentBp := hT ▸ hcb
    simp only [CurrentPC_ok hrf hthT]
    rcases hnb with hnbn | ⟨cbp, hcbe, hctt⟩
    · simp only [hcbT.trans hnbn]
      rcases hbad with hfnN | ⟨fn, hfn, hn⟩
      · simp only [hfnN]
      · simp only [hfn]
        rw [if_neg hn]
    · simp only [hcbT.trans hcbe]
      rw [hctt, if_neg (by decide)]
      rcases hbad with hfnN | ⟨fn, hfn, hn⟩
      · simp only [hfnN]
      · simp only [hfn]
        rw [if_neg hn]

/-- Witness for C7: at the base state the trapped thread sits past the
non-temp user breakpoint at 100, which becomes the current breakpoint, so
the session halts with success. -/
theorem resume_classifies_trap_witness :
    (DebuggedProcess.resume baseEnv baseState).1 = .ok () ∧
      (DebuggedProcess.resume baseEnv baseState).2.log =
        ({ baseState with currentBp := some ⟨1, 100, false, 7⟩ } : DbpState).log
          ++ [.halt] :=
  (resume_classifies_trap baseEnv baseState
      { baseState with currentBp := some ⟨1, 100, false, 7⟩ } 1 ⟨101, 500⟩
      rfl rfl rfl rfl).1 ⟨1, 100, false, 7⟩ rfl rfl rfl

/-! ### C8: resolution order of FindLocation -/

/-- C8: `FindLocation` resolves colon-free strings in a fixed order — a
known function name yields that function's entry PC; otherwise the string is
parsed as an integer (decimal, `0x`-hexadecimal or `0`-octal), and the
result is the address of the breakpoint whose id equals that integer when
one exists in either store (hardware slots scanned first), and the parsed
integer itself as a raw address when none does. -/
theorem find_location_function_then_id (env : Env) (s : DbpState) :
    (∀ (str : String) (fn : Func), str.toList.contains ':' = false →
      env.lookupFunc str = some fn →
      DebuggedProcess.FindLocation env s str = .ok fn.entry) ∧
    (∀ (str : String) (i : Nat), str.toList.contains ':' = false →
      env.lookupFunc str = none → parseUint0 str = some i →
      ((∃ bp, hwFindById s.hw i = some bp ∧
          DebuggedProcess.FindLocation env s str = .ok bp.addr) ∨
        (hwFindById s.hw i = none ∧ ∃ bp, swFindById s.sw i = some bp ∧
          DebuggedProcess.FindLocation env s str = .ok bp.addr) ∨
        (hwFindById s.hw i = none ∧ swFindById s.sw i = none ∧
          DebuggedProcess.FindLocation env s str = .ok i))) ∧
    (parseUint0 "42" = some 42 ∧ parseUint0 "0x2a" = some 42 ∧
      parseUint0 "052" = some 42) := by
  refine ⟨?_, ?_, by decide, by decide, by decide⟩
  · intro str fn hc hlf
    unfold DebuggedProcess.FindLocation
    rw [hc, if_neg (by decide), hlf]
  · intro str i hc hlf hp
    unfold DebuggedProcess.FindLocation
    rw [hc, if_neg (by decide)]
    simp only [hlf, hp]
    rcases hhw : hwFindById s.hw i with _ | bp
    · simp only [hhw]
      rcases hsw : swFindById s.sw i with _ | bp
      · simp only [hsw]
        exact Or.inr (Or.inr ⟨by trivial, by trivial, by trivial⟩)
      · simp only [hsw]
        exact Or.inr (Or.inl ⟨by trivial, bp, by trivial, by trivial⟩)
    · simp only [hhw]
      exact Or.inl ⟨bp, by trivial, by trivial⟩

/-- Witness for C8: the known function `main.main` resolves to its entry
4096; the string `"2"` parses as the id of the hardware breakpoint at 200
and so resolves to that address. -/
theorem find_location_function_then_id_witness :
    DebuggedProcess.FindLocation envC8 stC9 "main.main" = .ok 4096 ∧
      ((∃ bp, hwFindById stC9.hw 2 = some bp ∧
          DebuggedProcess.FindLocation envC8 stC9 "2" = .ok bp.addr) ∨
        (hwFindById stC9.hw 2 = none ∧ ∃ bp, swFindById stC9.sw 2 = some bp ∧
          DebuggedProcess.FindLocation envC8 stC9 "2" = .ok bp.addr) ∨
        (hwFindById stC9.hw 2 = none ∧ swFindById stC9.sw 2 = none ∧
          DebuggedProcess.FindLocation envC8 stC9 "2" = .ok 2)) :=
  ⟨(find_location_function_then_id envC8 stC9).1 "main.main"
      ⟨"main.main", 4096, 5000⟩ (by decide) rfl,
   (find_location_function_then_id envC8 stC9).2.1 "2" 2 (by decide) rfl rfl⟩

end Delve
